import Mathlib

/-!
# uv++ : future composition, wake handle and lazy value

A shallow embedding of `include/uv++/detail/utils.hpp`, `include/uv++/utils.hpp`,
`include/uv++/async.hpp`, `include/uv++/handles/base.hpp` and of
`os::process_title` of `include/uv++/os.hpp`.

Conventions of the embedding.

* A C++ computation that may have side effects and may throw is a function
  from a world state `σ` to an outcome (`Except CppException α`) paired with
  the world state it leaves behind.  Side effects survive a throw.
* A `std::future<T>` is the computation whose result `get()` retrieves.  A
  ready future is the computation that returns its value and leaves the world
  as it is.
* C++ types that template selection inspects are terms of `Ty`; `Ty.denote`
  gives the Lean type of their values.
-/

namespace uv

/-- An exception object in flight: an object thrown by user code (identified by
a tag), `::uv::Exception(status)`, `std::future_error(code)`, or
`std::bad_alloc` (with the exceptions derived from it). -/
inductive CppException where
  | thrown (tag : Nat)
  | uv_Exception (status : Int)
  | future_error (code : Nat)
  | bad_alloc
  deriving DecidableEq, Repr

/-- A computation over the world `σ` that returns an `α` or throws. -/
abbrev Comp (σ : Type) (α : Type) : Type := σ → Except CppException α × σ

/-- The computation `return v;`. -/
def Comp.ret {σ α : Type} (v : α) : Comp σ α := fun w => (Except.ok v, w)

/-- The computation `throw e;`. -/
def Comp.raise {σ α : Type} (e : CppException) : Comp σ α := fun w => (Except.error e, w)

/-- Sequencing: run `c`, and unless it threw, run `k` on its value. -/
def Comp.seq {σ α β : Type} (c : Comp σ α) (k : α → Comp σ β) : Comp σ β :=
  fun w =>
    match c w with
    | (Except.ok v, w1) => k v w1
    | (Except.error e, w1) => (Except.error e, w1)

namespace detail

/-- `std::future<T>`: `get` is the computation that waits for and retrieves the
result (value or stored exception). -/
structure future (σ : Type) (α : Type) where
  get : Comp σ α

/-- `std::shared_future<T>`. -/
structure shared_future (σ : Type) (α : Type) where
  get : Comp σ α

/-- `make_ready_future( T &&t )` (utils.hpp:66-71). -/
def make_ready_future {σ α : Type} (t : α) : future σ α := ⟨Comp.ret t⟩

/-- `make_ready_future( void )` (utils.hpp:73-77). -/
def make_ready_future_void {σ : Type} : future σ Unit := ⟨Comp.ret ()⟩

/-- `make_exception_future<T>( E e )` (utils.hpp:79-84). -/
def make_exception_future {σ α : Type} (e : CppException) : future σ α := ⟨Comp.raise e⟩

/-- `std::future<T>::share()`. -/
def future.share {σ α : Type} (s : future σ α) : shared_future σ α := ⟨s.get⟩

namespace _then

/-- `std::launch`, a bitmask type (`async = 1`, `deferred = 2`). -/
structure launch where
  bits : Nat
  deriving DecidableEq, Repr

/-- `launch::async`. -/
def launch.async : launch := ⟨1⟩

/-- `launch::deferred`. -/
def launch.deferred : launch := ⟨2⟩

/-- `constexpr launch default_policy = launch::deferred | launch::async;` (utils.hpp:142). -/
def default_policy : launch := ⟨launch.deferred.bits ||| launch.async.bits⟩

/-- The C++ types that the templates of `_then` tell apart: `void`,
`future<K>`, `shared_future<K>`, and any other ("plain") type, given by the Lean
type of its values. -/
inductive Ty : Type 1 where
  | plain (α : Type) : Ty
  | void : Ty
  | future (K : Ty) : Ty
  | shared_future (K : Ty) : Ty

/-- Values of a C++ type. -/
@[reducible]
def Ty.denote (σ : Type) : Ty → Type
  | Ty.plain α => α
  | Ty.void => Unit
  | Ty.future K => detail.future σ (Ty.denote σ K)
  | Ty.shared_future K => detail.shared_future σ (Ty.denote σ K)

/-- The type `recursive_get<K>::get` returns: `future` layers are stripped,
anything else (a `shared_future` included) is left alone. -/
@[reducible]
def Ty.unwrap : Ty → Ty
  | Ty.future P => Ty.unwrap P
  | Ty.plain α => Ty.plain α
  | Ty.void => Ty.void
  | Ty.shared_future K => Ty.shared_future K

/-- Whether a C++ type is `future<_>`. -/
def Ty.is_future : Ty → Bool
  | Ty.future _ => true
  | _ => false

/-- `future<future<...future<W>...>>` with `n` layers. -/
def Ty.nest : Nat → Ty → Ty
  | 0, W => W
  | n + 1, W => Ty.future (Ty.nest n W)

/-- `recursive_get<K>::get( future<K> &&k )` (utils.hpp:159-171): the primary
template returns `k.get()`; the specialisation for `K = future<P>` returns
`recursive_get<P>::get( k.get() )`. -/
def recursive_get {σ : Type} : (K : Ty) → detail.future σ (Ty.denote σ K) →
    Comp σ (Ty.denote σ (Ty.unwrap K))
  | Ty.future P, k => Comp.seq k.get (fun inner => recursive_get P inner)
  | Ty.plain _, k => k.get
  | Ty.void, k => k.get
  | Ty.shared_future _, k => k.get

/-- A type used as a template argument: a type of `Ty`, or the class
`std::result_of<Functor>` itself (a trait class, not its member `type`). -/
inductive TemplateArg : Type 1 where
  | ty (t : Ty) : TemplateArg
  | result_of_Functor : TemplateArg

/-- The three definitions of `then_invoke_helper<Functor, R>` (utils.hpp:173-195). -/
inductive Specialization : Type 1 where
  | primary : Specialization
  | for_future (K : Ty) : Specialization
  | for_shared_future (K : Ty) : Specialization

/-- Partial-specialisation matching for `then_invoke_helper<Functor, R>`:
`R = future<K>` and `R = shared_future<K>` pick the specialisations, anything
else the primary template. -/
@[reducible]
def then_invoke_helper.select : TemplateArg → Specialization
  | TemplateArg.ty (Ty.future K) => Specialization.for_future K
  | TemplateArg.ty (Ty.shared_future K) => Specialization.for_shared_future K
  | _ => Specialization.primary

/-- The default of the second template parameter, `typename R = result_of<Functor>`
(utils.hpp:173): inside `namespace _then`, after `using namespace std;`, this
names the class `std::result_of<Functor>`. -/
@[reducible]
def then_invoke_helper.default_R : TemplateArg := TemplateArg.result_of_Functor

/-- A specialisation's body is well-formed for a functor returning `Ret`:
`recursive_get<K>::get( f( args... ) )` needs `f` to return `future<K>`, and
`f( args... ).get()` in the `shared_future<K>` specialisation needs it to return
`shared_future<K>`. -/
def Specialization.fits (Ret : Ty) : Specialization → Prop
  | Specialization.primary => True
  | Specialization.for_future K => Ret = Ty.future K
  | Specialization.for_shared_future K => Ret = Ty.shared_future K

/-- The type `invoke` returns (`decltype(auto)`). -/
@[reducible]
def Specialization.result (Ret : Ty) : Specialization → Ty
  | Specialization.primary => Ret
  | Specialization.for_future K => Ty.unwrap K
  | Specialization.for_shared_future K => K

/-- `then_invoke_helper<Functor, R>::invoke( f, args... )` (utils.hpp:173-195).
The argument pack is one value of type `A` (`Unit` for the empty pack). -/
def then_invoke_helper.invoke {σ A : Type} :
    (Ret : Ty) → (sp : Specialization) → Specialization.fits Ret sp →
    (A → Comp σ (Ty.denote σ Ret)) → A → Comp σ (Ty.denote σ (Specialization.result Ret sp))
  | _, Specialization.primary, _, f, args => f args
  | _, Specialization.for_future K, rfl, f, args =>
      Comp.seq (f args) (fun r => recursive_get K r)
  | _, Specialization.for_shared_future _, rfl, f, args =>
      Comp.seq (f args) (fun r => r.get)

/-- The specialisation that `then_invoke_helper<Functor>` names. -/
@[reducible]
def then_invoke_helper.selected : Specialization :=
  then_invoke_helper.select then_invoke_helper.default_R

/-- The selected specialisation is well-formed for every functor. -/
def then_invoke_helper.selected_fits (Ret : Ty) :
    Specialization.fits Ret then_invoke_helper.selected := True.intro

/-- The result type of the continuation step, `then_invoke_helper<Functor>::invoke`. -/
@[reducible]
def then_result (Ret : Ty) : Ty := Specialization.result Ret then_invoke_helper.selected

/-- `then_helper<T, Functor>::dispatch( launch, future<T> &&s, Functor f )`
(utils.hpp:197-201), and the `void` specialisation (utils.hpp:208-214). -/
def then_helper.dispatch {σ : Type} {Ret : Ty} (_policy : launch) :
    (T : Ty) → detail.future σ (Ty.denote σ T) →
    (Ty.denote σ (Ty.unwrap T) → Comp σ (Ty.denote σ Ret)) →
    Comp σ (Ty.denote σ (then_result Ret))
  | Ty.void, s, f =>
      Comp.seq s.get (fun _ =>
        then_invoke_helper.invoke Ret then_invoke_helper.selected
          (then_invoke_helper.selected_fits Ret) f ())
  | Ty.plain α, s, f =>
      Comp.seq (recursive_get (Ty.plain α) s) (fun v =>
        then_invoke_helper.invoke Ret then_invoke_helper.selected
          (then_invoke_helper.selected_fits Ret) f v)
  | Ty.future P, s, f =>
      Comp.seq (recursive_get (Ty.future P) s) (fun v =>
        then_invoke_helper.invoke Ret then_invoke_helper.selected
          (then_invoke_helper.selected_fits Ret) f v)
  | Ty.shared_future K, s, f =>
      Comp.seq (recursive_get (Ty.shared_future K) s) (fun v =>
        then_invoke_helper.invoke Ret then_invoke_helper.selected
          (then_invoke_helper.selected_fits Ret) f v)

/-- `then_helper<T, Functor>::dispatch( launch, shared_future<T> s, Functor f )`
(utils.hpp:203-205), and the `void` specialisation (utils.hpp:216-220). -/
def then_helper.dispatch_shared {σ : Type} {Ret : Ty} (_policy : launch) :
    (T : Ty) → detail.shared_future σ (Ty.denote σ T) →
    (Ty.denote σ T → Comp σ (Ty.denote σ Ret)) →
    Comp σ (Ty.denote σ (then_result Ret))
  | Ty.void, s, f =>
      Comp.seq s.get (fun _ =>
        then_invoke_helper.invoke Ret then_invoke_helper.selected
          (then_invoke_helper.selected_fits Ret) f ())
  | Ty.plain _, s, f =>
      Comp.seq s.get (fun v =>
        then_invoke_helper.invoke Ret then_invoke_helper.selected
          (then_invoke_helper.selected_fits Ret) f v)
  | Ty.future _, s, f =>
      Comp.seq s.get (fun v =>
        then_invoke_helper.invoke Ret then_invoke_helper.selected
          (then_invoke_helper.selected_fits Ret) f v)
  | Ty.shared_future _, s, f =>
      Comp.seq s.get (fun v =>
        then_invoke_helper.invoke Ret then_invoke_helper.selected
          (then_invoke_helper.selected_fits Ret) f v)

/-- `std::async( policy, fn, args... )`: a future whose result is that of the
call; what the call throws is stored in the future and raised by `get()`.
Creating the future runs nothing on the calling thread.  The result does not
depend on whether the policy defers the call or runs it on another thread. -/
def std_async {σ α : Type} (_policy : launch) (task : Comp σ α) : detail.future σ α := ⟨task⟩

/-- `then( future<T> &&s, Functor f, launch policy )` (utils.hpp:223-228). -/
def then_ {σ : Type} {Ret : Ty} (T : Ty) (s : detail.future σ (Ty.denote σ T))
    (f : Ty.denote σ (Ty.unwrap T) → Comp σ (Ty.denote σ Ret)) (policy : launch) :
    detail.future σ (Ty.denote σ (then_result Ret)) :=
  std_async policy (then_helper.dispatch policy T s f)

/-- `then( future<T> &s, Functor f, launch policy )` (utils.hpp:230-233). -/
def then_lvalue {σ : Type} {Ret : Ty} (T : Ty) (s : detail.future σ (Ty.denote σ T))
    (f : Ty.denote σ (Ty.unwrap T) → Comp σ (Ty.denote σ Ret)) (policy : launch) :
    detail.future σ (Ty.denote σ (then_result Ret)) :=
  then_ T s f policy

/-- `then( shared_future<T> s, Functor f, launch policy )` (utils.hpp:235-240). -/
def then_shared {σ : Type} {Ret : Ty} (T : Ty) (s : detail.shared_future σ (Ty.denote σ T))
    (f : Ty.denote σ T → Comp σ (Ty.denote σ Ret)) (policy : launch) :
    detail.future σ (Ty.denote σ (then_result Ret)) :=
  std_async policy (then_helper.dispatch_shared policy T s f)

end _then

/-! ## `LazyStatic<T>` (utils.hpp:86-125) -/

/-- How a call that may wait ends: it returns, it throws, or it waits for
something that nothing running can provide. -/
inductive Outcome (α : Type) where
  | returned (v : α)
  | raised (e : CppException)
  | blocked
  deriving DecidableEq, Repr

/-- `std::future_errc::promise_already_satisfied`. -/
def promise_already_satisfied : Nat := 2

/-- The data members of `LazyStatic<T>` (utils.hpp:92-96).  `once` is whether
the `std::once_flag` has been claimed by a call that returned; `p` is whether
the promise has been given its value, which is what the shared future `s`
waits for. -/
structure LazyStatic (T : Type) where
  value : T
  once : Bool
  ran : Bool
  p : Bool
  deriving DecidableEq, Repr

/-- `LazyStatic()` (utils.hpp:98-100): the constructor initialises `p` and `s`,
and `once` has its default constructor; `value` and `ran` have no initialiser.
`v0` is what `value` holds after construction.  `ran0` is what `ran` holds: in
an object of static storage duration it is `false` (the storage is zeroed
before the constructor runs); elsewhere it is whatever the storage held. -/
def LazyStatic.construct {T : Type} (v0 : T) (ran0 : Bool) : LazyStatic T :=
  { value := v0, once := false, ran := ran0, p := false }

/-- `std::promise<void>::set_value()` on `p`: throws `future_error` when the
promise already holds a value. -/
def LazyStatic.p_set_value {T : Type} (self : LazyStatic T) :
    Except CppException Unit × LazyStatic T :=
  if self.p then (Except.error (CppException.future_error promise_already_satisfied), self)
  else (Except.ok (), { self with p := true })

/-- `void run()` (utils.hpp:102-108). -/
def LazyStatic.run {σ T : Type} (init : Comp σ T) (self : LazyStatic T) (w : σ) :
    Except CppException Unit × LazyStatic T × σ :=
  match init w with
  | (Except.error e, w1) => (Except.error e, self, w1)
  | (Except.ok v, w1) =>
    let s1 := { self with value := v }
    match LazyStatic.p_set_value s1 with
    | (Except.error e, s2) => (Except.error e, s2, w1)
    | (Except.ok _, s2) => (Except.ok (), { s2 with ran := true }, w1)

/-- `std::call_once( once, &LazyStatic::run, this )`: nothing happens when the
flag is claimed; otherwise `run` is called, and the flag is claimed only when
`run` returns (an exception leaves it unclaimed and propagates). -/
def LazyStatic.call_once_run {σ T : Type} (init : Comp σ T) (self : LazyStatic T) (w : σ) :
    Except CppException Unit × LazyStatic T × σ :=
  if self.once then (Except.ok (), self, w)
  else
    match LazyStatic.run init self w with
    | (Except.error e, s1, w1) => (Except.error e, s1, w1)
    | (Except.ok _, s1, w1) => (Except.ok (), { s1 with once := true }, w1)

/-- `value_type &get()` (utils.hpp:114-124), called by the only running thread:
`s.wait()` returns when `p` holds its value and otherwise never. -/
def LazyStatic.get {σ T : Type} (init : Comp σ T) (self : LazyStatic T) (w : σ) :
    Outcome T × LazyStatic T × σ :=
  if !self.ran then
    match LazyStatic.call_once_run init self w with
    | (Except.error e, s1, w1) => (Outcome.raised e, s1, w1)
    | (Except.ok _, s1, w1) =>
      if !s1.ran then
        if s1.p then (Outcome.returned s1.value, s1, w1) else (Outcome.blocked, s1, w1)
      else (Outcome.returned s1.value, s1, w1)
  else (Outcome.returned self.value, self, w)

/-- `operator value_type &()` (utils.hpp:110-112). -/
def LazyStatic.conversion {σ T : Type} (init : Comp σ T) (self : LazyStatic T) (w : σ) :
    Outcome T × LazyStatic T × σ :=
  LazyStatic.get init self w

/-- The two ways of reading a `LazyStatic`. -/
inductive LazyCall where
  | get
  | conversion
  deriving DecidableEq, Repr

/-- One call on the object. -/
def LazyStatic.call {σ T : Type} (init : Comp σ T) (c : LazyCall) (self : LazyStatic T) (w : σ) :
    Outcome T × LazyStatic T × σ :=
  match c with
  | LazyCall.get => LazyStatic.get init self w
  | LazyCall.conversion => LazyStatic.conversion init self w

/-- A sequence of calls on one object, one after the other: the outcomes in
order, the final object and the final world. -/
def LazyStatic.calls {σ T : Type} (init : Comp σ T) :
    List LazyCall → LazyStatic T → σ → List (Outcome T) × LazyStatic T × σ
  | [], self, w => ([], self, w)
  | c :: rest, self, w =>
    match LazyStatic.call init c self w with
    | (o, s1, w1) =>
      match LazyStatic.calls init rest s1 w1 with
      | (os, s2, w2) => (o :: os, s2, w2)


/-! ### `LazyStatic<T>::get()` called by several threads

Each thread runs `get()` one shared-memory access at a time; a schedule says
which thread takes the next step.  `std::call_once` is as the C++ standard has
it: a call on a claimed flag returns at once; otherwise, while another thread
is executing the callable the call waits, and else it executes the callable
itself and claims the flag when the callable returns.  Accesses are
sequentially consistent. -/

/-- Where a thread stands in `get()`: before the test of line 115; at
`std::call_once` (line 116); inside `run()` before line 103, 105 or 107; `run()`
done and about to leave `call_once`; before the test of line 118; in `s.wait()`
(line 119); before `return value` (line 123); or finished. -/
inductive GetPC (T : Type) where
  | check_ran
  | call_once
  | run_init
  | run_set_value
  | run_set_ran
  | call_once_return
  | recheck_ran
  | wait
  | return_value
  | returned (v : T)
  | raised (e : CppException)
  deriving DecidableEq, Repr

/-- What the threads share: the object, whether some thread is executing the
callable of `call_once`, and the world that `init()` acts on. -/
structure LazyShared (σ T : Type) where
  obj : LazyStatic T
  active : Bool
  world : σ

/-- One step of one thread through `get()` (utils.hpp:102-108, 114-124).  A
thread that has to wait stays where it is. -/
def LazyStatic.get_step {σ T : Type} (init : Comp σ T) (pc : GetPC T) (sh : LazyShared σ T) :
    GetPC T × LazyShared σ T :=
  match pc with
  | GetPC.check_ran =>
    if !sh.obj.ran then (GetPC.call_once, sh) else (GetPC.return_value, sh)
  | GetPC.call_once =>
    if sh.obj.once then (GetPC.recheck_ran, sh)
    else if sh.active then (GetPC.call_once, sh)
    else (GetPC.run_init, { sh with active := true })
  | GetPC.run_init =>
    match init sh.world with
    | (Except.ok v, w1) =>
      (GetPC.run_set_value, { sh with obj := { sh.obj with value := v }, world := w1 })
    | (Except.error e, w1) => (GetPC.raised e, { sh with active := false, world := w1 })
  | GetPC.run_set_value =>
    match LazyStatic.p_set_value sh.obj with
    | (Except.ok _, o1) => (GetPC.run_set_ran, { sh with obj := o1 })
    | (Except.error e, o1) => (GetPC.raised e, { sh with obj := o1, active := false })
  | GetPC.run_set_ran =>
    (GetPC.call_once_return, { sh with obj := { sh.obj with ran := true } })
  | GetPC.call_once_return =>
    (GetPC.recheck_ran, { sh with obj := { sh.obj with once := true }, active := false })
  | GetPC.recheck_ran =>
    if !sh.obj.ran then (GetPC.wait, sh) else (GetPC.return_value, sh)
  | GetPC.wait =>
    if sh.obj.p then (GetPC.return_value, sh) else (GetPC.wait, sh)
  | GetPC.return_value => (GetPC.returned sh.obj.value, sh)
  | GetPC.returned v => (GetPC.returned v, sh)
  | GetPC.raised e => (GetPC.raised e, sh)

/-- Whether the thread is executing the callable of `call_once`. -/
def GetPC.in_run {T : Type} : GetPC T → Bool
  | GetPC.run_init => true
  | GetPC.run_set_value => true
  | GetPC.run_set_ran => true
  | GetPC.call_once_return => true
  | _ => false

/-- A bound on the steps a thread still takes. -/
def GetPC.rank {T : Type} : GetPC T → Nat
  | GetPC.check_ran => 9
  | GetPC.call_once => 8
  | GetPC.run_init => 7
  | GetPC.run_set_value => 6
  | GetPC.run_set_ran => 5
  | GetPC.call_once_return => 4
  | GetPC.recheck_ran => 3
  | GetPC.wait => 2
  | GetPC.return_value => 1
  | GetPC.returned _ => 0
  | GetPC.raised _ => 0

/-- How the call of a thread has ended, if the thread is at an end: it has
returned, it has raised, or it waits on the completion future. -/
def GetPC.outcome {T : Type} : GetPC T → Option (Outcome T)
  | GetPC.returned v => some (Outcome.returned v)
  | GetPC.raised e => some (Outcome.raised e)
  | GetPC.wait => some Outcome.blocked
  | _ => none

/-- The threads calling `get()` on one object, and what they share. -/
structure LazySystem (σ T : Type) where
  shared : LazyShared σ T
  threads : List (GetPC T)

/-- A freshly constructed object (`ran` holding `ran0`) and `n` threads about to
call `get()`. -/
def LazySystem.initial {σ T : Type} (n : Nat) (v0 : T) (ran0 : Bool) (w : σ) :
    LazySystem σ T :=
  { shared := { obj := LazyStatic.construct v0 ran0, active := false, world := w },
    threads := List.replicate n GetPC.check_ran }

/-- Thread `i` takes one step. -/
def LazySystem.step {σ T : Type} (init : Comp σ T) (i : Nat) (s : LazySystem σ T) :
    LazySystem σ T :=
  match s.threads[i]? with
  | none => s
  | some pc =>
    { shared := (LazyStatic.get_step init pc s.shared).2,
      threads := s.threads.set i (LazyStatic.get_step init pc s.shared).1 }

/-- The threads take steps in the order of the schedule. -/
def LazySystem.run {σ T : Type} (init : Comp σ T) : List Nat → LazySystem σ T → LazySystem σ T
  | [], s => s
  | i :: rest, s => LazySystem.run init rest (LazySystem.step init i s)

/-- The sum of the ranks of the threads. -/
def LazySystem.total_rank {σ T : Type} (s : LazySystem σ T) : Nat :=
  (s.threads.map GetPC.rank).sum

/-- What holds of the shared state at every moment of a concurrent run in
which `init()` returns `v` and takes the world from `w` to `w1`. -/
def LazyShared.global_ok {σ T : Type} (v : T) (w w1 : σ) (sh : LazyShared σ T) : Prop :=
  (sh.obj.ran = true → sh.obj.p = true ∧ sh.world = w1 ∧ sh.obj.value = v) ∧
  (sh.obj.once = true → sh.obj.ran = true ∧ sh.active = false) ∧
  (sh.active = false → sh.obj.once = false →
    sh.obj.ran = false ∧ sh.obj.p = false ∧ sh.world = w)

/-- What the shared state must be like for a thread to stand at `pc`. -/
def GetPC.allowed {σ T : Type} (v : T) (w w1 : σ) (sh : LazyShared σ T) : GetPC T → Prop
  | GetPC.check_ran => True
  | GetPC.call_once => True
  | GetPC.run_init =>
    sh.active = true ∧ sh.obj.once = false ∧ sh.obj.ran = false ∧ sh.obj.p = false ∧
      sh.world = w
  | GetPC.run_set_value =>
    sh.active = true ∧ sh.obj.once = false ∧ sh.obj.ran = false ∧ sh.obj.p = false ∧
      sh.world = w1 ∧ sh.obj.value = v
  | GetPC.run_set_ran =>
    sh.active = true ∧ sh.obj.once = false ∧ sh.obj.ran = false ∧ sh.obj.p = true ∧
      sh.world = w1 ∧ sh.obj.value = v
  | GetPC.call_once_return =>
    sh.active = true ∧ sh.obj.once = false ∧ sh.obj.ran = true ∧ sh.obj.p = true ∧
      sh.world = w1 ∧ sh.obj.value = v
  | GetPC.recheck_ran => sh.obj.once = true
  | GetPC.wait => False
  | GetPC.return_value => sh.obj.ran = true
  | GetPC.returned x => x = v ∧ sh.obj.ran = true
  | GetPC.raised _ => False

/-- The invariant of a concurrent run: the shared state is consistent, every
thread stands where the shared state allows, at most one thread is executing
the callable of `call_once`, and one is whenever `active` is set. -/
def LazySystem.Inv {σ T : Type} (v : T) (w w1 : σ) (s : LazySystem σ T) : Prop :=
  LazyShared.global_ok v w w1 s.shared ∧
  (∀ (i : Nat) (pc : GetPC T), s.threads[i]? = some pc → GetPC.allowed v w w1 s.shared pc) ∧
  (∀ (i j : Nat) (pci pcj : GetPC T), s.threads[i]? = some pci → s.threads[j]? = some pcj →
    GetPC.in_run pci = true → GetPC.in_run pcj = true → i = j) ∧
  (s.shared.active = true →
    ∃ (i : Nat) (pc : GetPC T), s.threads[i]? = some pc ∧ GetPC.in_run pc = true)

/-- Modelled from the spec: `detail::AsyncContinuation<Functor, P, R>` of
`detail/async.hpp`, which is not among the sources.  It holds the handler, the
payload of the most recent `init` and the promise of the most recent `init`
(the index of its shared state in the store of shared states). -/
structure AsyncContinuation (P R : Type) where
  f : P → Except CppException R
  payload : Option P
  promise : Option Nat

/-- Modelled from the spec: the constructor `AsyncContinuation( f )` of
`detail/async.hpp`: the handler is stored, no payload and no promise yet. -/
def AsyncContinuation.construct {P R : Type} (f : P → Except CppException R) :
    AsyncContinuation P R :=
  { f := f, payload := none, promise := none }

/-- The shared states of the promises made so far: `none` while unfulfilled,
then the value or the exception. A `std::shared_future<R>` handed out by
`init` is the index of its shared state. -/
abbrev SharedStates (R : Type) : Type := List (Option (Except CppException R))

/-- What `get()` on the shared future with index `fut` finds. -/
def SharedStates.lookup {R : Type} (st : SharedStates R) (fut : Nat) :
    Option (Except CppException R) :=
  match st.get? fut with
  | some (some r) => some r
  | _ => none

/-- Modelled from the spec: `AsyncContinuation::init( args... )` of
`detail/async.hpp` ("constructs a fresh Payload from args, installs a fresh
promise, returns the corresponding future immediately").  `mkP` is the
constructor `P( args... )`. -/
def AsyncContinuation.init {A P R : Type} (mkP : A → P) (args : A)
    (c : AsyncContinuation P R) (st : SharedStates R) :
    Nat × AsyncContinuation P R × SharedStates R :=
  (st.length, { c with payload := some (mkP args), promise := some st.length }, st ++ [none])

/-- Modelled from the spec: `AsyncContinuation::dispatch( owningHandle )` of
`detail/async.hpp` ("reads the current Payload, invokes the registered handler
with it, and fulfills the associated promise with the handler's return value";
an exception of the handler "is captured into the promise's error channel").
Without a payload and promise from an `init` nothing is fulfilled. -/
def AsyncContinuation.dispatch {P R : Type} (c : AsyncContinuation P R) (st : SharedStates R) :
    SharedStates R :=
  match c.payload, c.promise with
  | some x, some i =>
    match st.get? i with
    | some none => st.set i (some (c.f x))
    | _ => st
  | _, _ => st

end detail

/-! ## Handles (handles/base.hpp, async.hpp) -/

/-- A `void *`: null, the address of a handle object, or the address of the
`internal_data` member of the handle object at an address. -/
inductive Ptr where
  | null
  | object (address : Nat)
  | internal_data_of (address : Nat)
  deriving DecidableEq, Repr

/-- `struct HandleData` (base.hpp:17-30).  `continuation` is the
`std::shared_ptr<void>`, empty or owning the continuation; for `Async<P, R>` the
object it owns is an `AsyncContinuation`. -/
structure HandleData (P R : Type) where
  continuation : Option (detail.AsyncContinuation P R)
  close_continuation : Option Unit
  self : Ptr

/-- `HandleData( void *s )` (base.hpp:26-29). -/
def HandleData.construct {P R : Type} (s : Ptr) : HandleData P R :=
  { continuation := none, close_continuation := none, self := s }

/-- The callbacks that this code hands to `uv_async_init`: the lambda of
`Async::start` (async.hpp:30-36). -/
inductive uv_async_cb where
  | start_lambda
  deriving DecidableEq, Repr

/-- The fields of libuv's `uv_async_t` that the code reads or libuv sets:
`data`, the installed callback, and whether a wake-up is pending. -/
structure uv_async_t where
  data : Ptr
  async_cb : Option uv_async_cb
  pending : Bool
  deriving DecidableEq, Repr

/-- An `Async<P, R>` object: `address` is `this`; `internal_data` is
`HandleBase::internal_data` (base.hpp:41); `_handle` and `closing` are the
members of `Handle` (base.hpp:97-98); `_parent_loop` and `_loop` are the loop
pointers kept by `detail::FromLoop`; `shared_states` are the shared states of
the promises of its continuation. -/
structure Async (P R : Type) where
  address : Nat
  internal_data : HandleData P R
  _handle : uv_async_t
  closing : Bool
  _parent_loop : Option Nat
  _loop : Option Nat
  shared_states : detail.SharedStates R

/-- `HandleBase()` (base.hpp:58-59) for the object at `address`:
`internal_data( this )`.  The native handle starts with the `data` it happens to
hold, `data0`. -/
def HandleBase.construct {P R : Type} (address : Nat) (data0 : Ptr) : Async P R :=
  { address := address,
    internal_data := HandleData.construct (Ptr.object address),
    _handle := { data := data0, async_cb := none, pending := false },
    closing := false,
    _parent_loop := none,
    _loop := none,
    shared_states := [] }

/-- Modelled from the spec: `FromLoop::_loop_init( l, ul )` of
`detail/handle.hpp`, which is not among the sources: it records the owning
loop and its native loop. -/
def Async._loop_init2 {P R : Type} (l ul : Nat) (self : Async P R) : Async P R :=
  { self with _parent_loop := some l, _loop := some ul }

/-- Modelled from the spec: `FromLoop::_loop_init( l )` of `detail/handle.hpp`,
which is not among the sources: it records the owning loop, whose native loop
is `native l`. -/
def Async._loop_init1 {P R : Type} (native : Nat → Nat) (l : Nat) (self : Async P R) :
    Async P R :=
  { self with _parent_loop := some l, _loop := some (native l) }

/-- `Async::_init()` (async.hpp:19-21): "No-op for uv_async_t". -/
def Async._init {P R : Type} (self : Async P R) : Async P R := self

/-- `HandleBase::init( Loop *l, uv_loop_t *ul )` (base.hpp:49-55). -/
def HandleBase.init2 {P R : Type} (l ul : Nat) (self : Async P R) : Async P R :=
  let s1 := Async._loop_init2 l ul self
  let s2 := { s1 with _handle := { s1._handle with data := Ptr.internal_data_of s1.address } }
  Async._init s2

/-- `HandleBase::init( Loop *l )` (base.hpp:61-67). -/
def HandleBase.init1 {P R : Type} (native : Nat → Nat) (l : Nat) (self : Async P R) :
    Async P R :=
  let s1 := Async._loop_init1 native l self
  let s2 := { s1 with _handle := { s1._handle with data := Ptr.internal_data_of s1.address } }
  Async._init s2

/-- libuv's `uv_async_init( loop, handle, cb )`: `status` is the status the
native call comes back with.  On success the callback is installed and no
wake-up is pending; on failure the handle is left as it was.  `data` is never
touched. -/
def uv_async_init (status : Int) (h : uv_async_t) (cb : uv_async_cb) : Int × uv_async_t :=
  if status = 0 then (0, { h with async_cb := some cb, pending := false }) else (status, h)

/-- libuv's `uv_async_send( handle )`: a wake-up of the loop is requested. -/
def uv_async_send (h : uv_async_t) : Int × uv_async_t := (0, { h with pending := true })

/-- `Async::start( Functor f )` (async.hpp:24-37).  `status` is what
`uv_async_init` returns; the code does not look at it. -/
def Async.start {P R : Type} (status : Int) (f : P → Except CppException R)
    (self : Async P R) : Except CppException Unit × Async P R :=
  let s1 := { self with internal_data :=
    { self.internal_data with continuation := some (detail.AsyncContinuation.construct f) } }
  let r := uv_async_init status s1._handle uv_async_cb.start_lambda
  (Except.ok (), { s1 with _handle := r.2 })

/-- How `Async::send` ends. -/
inductive SendResult (P R : Type) where
  | returned (fut : Nat) (self : Async P R)
  | raised (e : CppException) (self : Async P R)
  | undefined_behaviour

/-- `Async::send( Args... args )` (async.hpp:39-50).  With an empty
`continuation` slot `c` is a null pointer and `c->init( ... )` dereferences
it. -/
def Async.send {A P R : Type} (mkP : A → P) (args : A) (self : Async P R) : SendResult P R :=
  match self.internal_data.continuation with
  | none => SendResult.undefined_behaviour
  | some c =>
    let r := detail.AsyncContinuation.init mkP args c self.shared_states
    let s1 := { self with
      internal_data := { self.internal_data with continuation := some r.2.1 },
      shared_states := r.2.2 }
    let h := uv_async_send s1._handle
    SendResult.returned r.1 { s1 with _handle := h.2 }

/-- `static_cast<HandleData *>( h->data )` followed by a read through the
pointer, for the handle `h` of the object `self`: defined when `h->data` is the
address of that object's `internal_data`. -/
def Async.deref_data {P R : Type} (self : Async P R) (p : Ptr) : Option (HandleData P R) :=
  if p = Ptr.internal_data_of self.address then some self.internal_data else none

/-- The first two statements of the lambda of `Async::start` (async.hpp:31-33)
and the argument of `dispatch` (async.hpp:35): the continuation `c` and the
pointer `d->self`.  `none` is a read through a pointer that is not valid. -/
def Async.trampoline_target {P R : Type} (self : Async P R) :
    Option (detail.AsyncContinuation P R × Ptr) :=
  match Async.deref_data self self._handle.data with
  | none => none
  | some d =>
    match d.continuation with
    | none => none
    | some c => some (c, d.self)

/-- The lambda of `Async::start` (async.hpp:30-36), called with the handle of
`self`: `c->dispatch( static_cast<Async<P, R> *>( d->self ) )`. -/
def Async.start_lambda {P R : Type} (self : Async P R) : Option (Async P R) :=
  match Async.trampoline_target self with
  | none => none
  | some (c, _) => some { self with shared_states := detail.AsyncContinuation.dispatch c self.shared_states }

/-- One iteration of the loop as far as this handle goes: a pending wake-up is
consumed and the installed callback is called with the handle. -/
def Async.run_wake {P R : Type} (self : Async P R) : Option (Async P R) :=
  if self._handle.pending then
    match self._handle.async_cb with
    | none => some self
    | some uv_async_cb.start_lambda =>
      Async.start_lambda { self with _handle := { self._handle with pending := false } }
  else some self

/-- The operations on a handle that change it. -/
inductive HandleOp (A P R : Type) where
  | init1 (native : Nat → Nat) (l : Nat)
  | init2 (l ul : Nat)
  | start (status : Int) (f : P → Except CppException R)
  | send (mkP : A → P) (args : A)
  | run_wake

/-- Whether the operation is one of the two `init` overloads. -/
def HandleOp.is_init {A P R : Type} : HandleOp A P R → Bool
  | HandleOp.init1 _ _ => true
  | HandleOp.init2 _ _ => true
  | _ => false

/-- One operation; `none` is undefined behaviour. -/
def Async.apply {A P R : Type} (op : HandleOp A P R) (self : Async P R) : Option (Async P R) :=
  match op with
  | HandleOp.init1 native l => some (HandleBase.init1 native l self)
  | HandleOp.init2 l ul => some (HandleBase.init2 l ul self)
  | HandleOp.start status f => some (Async.start status f self).2
  | HandleOp.send mkP args =>
    match Async.send mkP args self with
    | SendResult.returned _ s1 => some s1
    | SendResult.raised _ s1 => some s1
    | SendResult.undefined_behaviour => none
  | HandleOp.run_wake => Async.run_wake self

/-- A sequence of operations, one after the other. -/
def Async.apply_all {A P R : Type} : List (HandleOp A P R) → Async P R → Option (Async P R)
  | [], self => some self
  | op :: rest, self =>
    match Async.apply op self with
    | none => none
    | some s1 => Async.apply_all rest s1

end uv



/-! ## Further definitions: `is_any`, `clamp`, `os::process_title`, nested sources, repeated `start` -/

namespace uv

/-- `uv::is_any` (utils.hpp:9-22).  The candidates `val2, args...` are a list;
`eq` is `operator==` between the value and a candidate.  With one candidate the
two-parameter overload is chosen, with more the variadic one, with none the
one-parameter overload. -/
def is_any {T K : Type} (eq : T → K → Bool) (val : T) : List K → Bool
  | [] => false
  | [val2] => eq val val2
  | val2 :: arg :: args => eq val val2 || is_any eq val (arg :: args)

namespace detail

/-- `uv::detail::is_any` (detail/utils.hpp:18-31), the same three overloads,
declared `noexcept`. -/
def is_any {T K : Type} (eq : T → K → Bool) (val : T) : List K → Bool
  | [] => false
  | [val2] => eq val val2
  | val2 :: arg :: args => eq val val2 || detail.is_any eq val (arg :: args)

/-- `clamp( v, lo, hi, comp )` (utils.hpp:127-132).  `none` is the failure of
`assert( !comp( hi, lo ) )`. -/
def clamp {T : Type} (v lo hi : T) (comp : T → T → Bool) : Option T :=
  if comp hi lo then none
  else some (if comp v lo then lo else if comp hi v then hi else v)

/-- `std::less<>()`: the comparison that calls `operator<`, here `lt`. -/
def std_less {T : Type} (lt : T → T → Bool) : T → T → Bool := fun a b => lt a b

/-- `clamp( v, lo, hi )` (utils.hpp:134-137); `lt` is `operator<` of `T`. -/
def clamp3 {T : Type} (lt : T → T → Bool) (v lo hi : T) : Option T :=
  clamp v lo hi (std_less lt)

namespace _then

/-- A value of the innermost type as an argument of the continuation of a
source of type `future<...future<V>...>` (`n` layers inside the source
future): `recursive_get` returns the innermost type. -/
def Ty.as_arg {σ α : Type} : (n : Nat) → α → Ty.denote σ (Ty.unwrap (Ty.nest n (Ty.plain α)))
  | 0, v => v
  | n + 1, v => Ty.as_arg n v

/-- A source future whose type has `n` layers of `future` inside it, each layer
ready and holding the next, the innermost holding `v`; every `get()` applies
`tick` to the world, so the world records how many times `get()` was called. -/
def nested_future {σ α : Type} (tick : σ → σ) (v : α) :
    (n : Nat) → detail.future σ (Ty.denote σ (Ty.nest n (Ty.plain α)))
  | 0 => ⟨fun w => (Except.ok v, tick w)⟩
  | n + 1 => ⟨fun w => (Except.ok (nested_future tick v n), tick w)⟩

end _then
end detail

/-- A sequence of calls of `Async::start`, each with the status that
`uv_async_init` returns and the handler, one after the other. -/
def Async.start_all {P R : Type} :
    List (Int × (P → Except CppException R)) → Async P R → Async P R
  | [], self => self
  | (status, f) :: rest, self => Async.start_all rest (Async.start status f self).2

/-- Whether the operation is a call of `start`. -/
def HandleOp.is_start {A P R : Type} : HandleOp A P R → Bool
  | HandleOp.start _ _ => true
  | _ => false

/-- A handle at `address` that is attached and armed with the handler `h`: the
`self` pointer is the object, `data` of the native handle is the address of its
user-data block, the lambda of `start` is installed, and the continuation slot
holds a continuation whose handler is `h`. -/
def Async.armed_with {P R : Type} (h : P → Except CppException R) (address : Nat)
    (s : Async P R) : Prop :=
  s.address = address ∧
  s.internal_data.self = Ptr.object address ∧
  s._handle.data = Ptr.internal_data_of address ∧
  s._handle.async_cb = some uv_async_cb.start_lambda ∧
  ∃ c, s.internal_data.continuation = some c ∧ c.f = h

namespace os

/-- The width of `size_t`. -/
def size_t_bits : Nat := 64

/-- `PTRDIFF_MAX`, the largest size an array can have. -/
def ptrdiff_max : Nat := 2 ^ 63 - 1

/-- The initial value of `static size_t buffer_size` (os.hpp:76). -/
def initial_buffer_size : Nat := 16

/-- Whether `new char[size]` (os.hpp:81) gets its memory in the world `w`: the
size must not exceed `PTRDIFF_MAX`, and the environment (`has_memory`) must
have that much.  Otherwise the expression throws `std::bad_alloc`. -/
def new_char_array {σ : Type} (has_memory : Nat → σ → Bool) (size : Nat) (w : σ) : Bool :=
  decide (size ≤ ptrdiff_max) && has_memory size w

/-- `std::string process_title()` (os.hpp:75-109).  `native size w` is the call
`uv_get_process_title( buffer, size )` in the world `w`: its status, the string
it left in the buffer, and the world afterwards.  `UV_ENOBUFS` is libuv's
constant.  `has_memory` is the environment answering the allocation of the
buffer, `builds_string` the environment answering the construction
`std::string ret( buffer )`; when either fails, `std::bad_alloc` leaves the
function.  `buffer_size` is the persistent `static size_t buffer_size`, given
and returned.  The loop `while( true )` runs for at most `fuel` rounds; `none`
is a loop that has not ended by then. -/
def process_title {σ : Type} (UV_ENOBUFS : Int) (has_memory : Nat → σ → Bool)
    (builds_string : String → σ → Bool) (native : Nat → σ → (Int × String) × σ) :
    Nat → Nat → σ → Option (Except CppException String × Nat × σ)
  | 0, _, _ => none
  | fuel + 1, buffer_size, w =>
    if new_char_array has_memory buffer_size w then
      match native buffer_size w with
      | ((res, buffer), w1) =>
        if res = 0 then
          if builds_string buffer w1 then some (Except.ok buffer, buffer_size, w1)
          else some (Except.error CppException.bad_alloc, buffer_size, w1)
        else if res = UV_ENOBUFS then
          process_title UV_ENOBUFS has_memory builds_string native fuel
            ((buffer_size * 2) % 2 ^ size_t_bits) w1
        else some (Except.error (CppException.uv_Exception res), buffer_size, w1)
    else some (Except.error CppException.bad_alloc, buffer_size, w)

end os
end uv

/-! ## Theorems -/

namespace uv
open detail detail._then

/-- Sequencing after a computation that returned. -/
theorem Comp.seq_ok {σ α β : Type} (c : Comp σ α) (k : α → Comp σ β) (w w1 : σ) (v : α)
    (h : c w = (Except.ok v, w1)) : Comp.seq c k w = k v w1 := by
  simp [Comp.seq, h]

/-- Sequencing after a computation that threw. -/
theorem Comp.seq_error {σ α β : Type} (c : Comp σ α) (k : α → Comp σ β) (w w1 : σ)
    (e : CppException) (h : c w = (Except.error e, w1)) :
    Comp.seq c k w = (Except.error e, w1) := by
  simp [Comp.seq, h]

/-- What retrieving the result of `then( future<T> &&, f, policy )` computes:
the source is unwrapped by `recursive_get`, then `f` is called on the value. -/
theorem then_get_eq {σ : Type} {Ret : Ty} (T : Ty) (s : detail.future σ (Ty.denote σ T))
    (f : Ty.denote σ (Ty.unwrap T) → Comp σ (Ty.denote σ Ret)) (policy : launch) :
    (then_ T s f policy).get = Comp.seq (recursive_get T s) f := by
  cases T <;> rfl

/-- What retrieving the result of `then( shared_future<T>, f, policy )`
computes: `s.get()`, then `f` on the value. -/
theorem then_shared_get_eq {σ : Type} {Ret : Ty} (T : Ty)
    (s : detail.shared_future σ (Ty.denote σ T))
    (f : Ty.denote σ T → Comp σ (Ty.denote σ Ret)) (policy : launch) :
    (then_shared T s f policy).get = Comp.seq s.get f := by
  cases T <;> rfl

/-- C1: when the source (an exclusive future of a plain type, through either
overload, or a shared future) yields the plain value `v`, retrieving the result
of `then( s, f, policy )` gives exactly what `f( v )` gives, for every `f`, every
`v` and every launch policy. -/
theorem then_plain_value {σ α : Type} {Ret : Ty} (s : detail.future σ α)
    (ss : detail.shared_future σ α) (f : α → Comp σ (Ty.denote σ Ret)) (policy : launch)
    (v : α) (w w1 : σ) (hs : s.get w = (Except.ok v, w1)) (hss : ss.get w = (Except.ok v, w1)) :
    (then_ (Ty.plain α) s f policy).get w = f v w1 ∧
    (then_lvalue (Ty.plain α) s f policy).get w = f v w1 ∧
    (then_shared (Ty.plain α) ss f policy).get w = f v w1 := by
  refine ⟨?_, ?_, ?_⟩
  · rw [then_get_eq]; exact Comp.seq_ok _ _ _ _ _ hs
  · unfold then_lvalue; rw [then_get_eq]; exact Comp.seq_ok _ _ _ _ _ hs
  · rw [then_shared_get_eq]; exact Comp.seq_ok _ _ _ _ _ hss

/-- C1, at the example of the spec: a source holding 5 and `f = v + 1` give 6. -/
theorem then_plain_value_witness :
    ((make_ready_future 5 : detail.future Unit Nat).get () = (Except.ok 5, ()) ∧
     ((make_ready_future 5).share : detail.shared_future Unit Nat).get () = (Except.ok 5, ())) ∧
    (@then_ Unit (Ty.plain Nat) (Ty.plain Nat) (make_ready_future 5)
        (fun v => Comp.ret (v + 1)) default_policy).get () = (Except.ok 6, ()) ∧
    (@then_lvalue Unit (Ty.plain Nat) (Ty.plain Nat) (make_ready_future 5)
        (fun v => Comp.ret (v + 1)) default_policy).get () = (Except.ok 6, ()) ∧
    (@then_shared Unit (Ty.plain Nat) (Ty.plain Nat) (make_ready_future 5).share
        (fun v => Comp.ret (v + 1)) default_policy).get () = (Except.ok 6, ()) :=
  ⟨⟨rfl, rfl⟩, then_plain_value (make_ready_future 5) (make_ready_future 5).share
    (fun v => Comp.ret (v + 1)) default_policy 5 () () rfl rfl⟩

/-- C2: the continuation's result is not flattened.  `then_invoke_helper<Functor>`
is the primary template for every functor, so the composed future has the
functor's own return type; with a source holding 5 and a continuation that
returns the ready future of `v + 1`, retrieving the result yields that future,
not 6. -/
theorem then_returned_future_not_unwrapped :
    then_invoke_helper.selected = Specialization.primary ∧
    (∀ Ret : Ty, then_result Ret = Ret) ∧
    Ty.is_future (then_result (Ty.future (Ty.plain Nat))) = true ∧
    (@then_ Unit (Ty.future (Ty.plain Nat)) (Ty.plain Nat) (make_ready_future 5)
        (fun v => Comp.ret (make_ready_future (v + 1))) default_policy).get ()
      = (Except.ok (make_ready_future 6), ()) :=
  ⟨rfl, fun _ => rfl, rfl, rfl⟩

/-- C4: for a source future of `void`, exclusive or shared, and a continuation
`f` of no arguments: when the source completes normally the result of the
composed future is that of `f()`; when the source completes with the exception
`e`, retrieving the result raises `e` and leaves the world as the source left
it, whatever `f` is, so `f` is not called. -/
theorem then_void_source {σ : Type} {Ret : Ty} (s : detail.future σ Unit)
    (ss : detail.shared_future σ Unit) (f : Unit → Comp σ (Ty.denote σ Ret)) (policy : launch)
    (w w1 : σ) (r : Except CppException Unit)
    (hs : s.get w = (r, w1)) (hss : ss.get w = (r, w1)) :
    (then_ Ty.void s f policy).get w =
      (match r with
       | Except.ok _ => f () w1
       | Except.error e => (Except.error e, w1)) ∧
    (then_shared Ty.void ss f policy).get w =
      (match r with
       | Except.ok _ => f () w1
       | Except.error e => (Except.error e, w1)) := by
  rw [then_get_eq, then_shared_get_eq]
  cases r with
  | ok u => exact ⟨Comp.seq_ok _ _ _ _ _ hs, Comp.seq_ok _ _ _ _ _ hss⟩
  | error e => exact ⟨Comp.seq_error _ _ _ _ _ hs, Comp.seq_error _ _ _ _ _ hss⟩

/-- C4 at concrete inputs, the world counting the calls of `f`: after a source
that failed with the exception 3 the count is still 0. -/
theorem then_void_source_witness :
    (@then_ Nat (Ty.plain Nat) Ty.void (make_exception_future (CppException.thrown 3))
        (fun _ => fun n => (Except.ok 10, n + 1)) launch.deferred).get 0
      = (Except.error (CppException.thrown 3), 0) ∧
    (@then_shared Nat (Ty.plain Nat) Ty.void
        (make_exception_future (CppException.thrown 3)).share
        (fun _ => fun n => (Except.ok 10, n + 1)) launch.deferred).get 0
      = (Except.error (CppException.thrown 3), 0) :=
  then_void_source (make_exception_future (CppException.thrown 3))
    (make_exception_future (CppException.thrown 3)).share
    (fun _ => fun n => (Except.ok 10, n + 1)) launch.deferred 0 0
    (Except.error (CppException.thrown 3)) rfl rfl

/-- What one operation on a handle leaves alone: the address of the object and
the `self` pointer of its user-data block; the `data` field of the native
handle is written by the `init` overloads only. -/
theorem Async.apply_frame {A P R : Type} (op : HandleOp A P R) (s s1 : Async P R)
    (h : Async.apply op s = some s1) :
    s1.address = s.address ∧ s1.internal_data.self = s.internal_data.self ∧
    s1._handle.data =
      (if HandleOp.is_init op then Ptr.internal_data_of s.address else s._handle.data) := by
  cases op with
  | init1 native l =>
    simp only [Async.apply, Option.some.injEq] at h
    subst h
    simp [HandleBase.init1, Async._init, Async._loop_init1, HandleOp.is_init]
  | init2 l ul =>
    simp only [Async.apply, Option.some.injEq] at h
    subst h
    simp [HandleBase.init2, Async._init, Async._loop_init2, HandleOp.is_init]
  | start status f =>
    simp only [Async.apply, Option.some.injEq] at h
    subst h
    by_cases hst : status = 0 <;> simp [Async.start, uv_async_init, HandleOp.is_init, hst]
  | send mkP args =>
    simp only [Async.apply, Async.send] at h
    cases hc : s.internal_data.continuation with
    | none => simp [hc] at h
    | some c =>
      simp only [hc, Option.some.injEq] at h
      subst h
      simp [uv_async_send, HandleOp.is_init]
  | run_wake =>
    simp only [Async.apply, Async.run_wake] at h
    by_cases hp : s._handle.pending = true
    · simp only [hp, if_true] at h
      cases hcb : s._handle.async_cb with
      | none =>
        simp only [hcb, Option.some.injEq] at h
        subst h
        simp [HandleOp.is_init]
      | some cb =>
        cases cb
        simp only [hcb, Async.start_lambda] at h
        split at h
        · simp at h
        · simp only [Option.some.injEq] at h
          subst h
          simp [HandleOp.is_init]
    · simp only [hp, Option.some.injEq] at h
      simp at h
      subst h
      simp [HandleOp.is_init]

/-- What a sequence of operations leaves alone. -/
theorem Async.apply_all_frame {A P R : Type} (ops : List (HandleOp A P R)) :
    ∀ (s s1 : Async P R), Async.apply_all ops s = some s1 →
    s1.address = s.address ∧ s1.internal_data.self = s.internal_data.self ∧
    s1._handle.data =
      (if ops.any HandleOp.is_init = true then Ptr.internal_data_of s.address
       else s._handle.data) := by
  induction ops with
  | nil =>
    intro s s1 h
    simp only [Async.apply_all, Option.some.injEq] at h
    subst h
    simp
  | cons op rest ih =>
    intro s s1 h
    simp only [Async.apply_all] at h
    cases hop : Async.apply op s with
    | none => simp [hop] at h
    | some s2 =>
      simp only [hop] at h
      obtain ⟨ha, hself, hd⟩ := Async.apply_frame op s s2 hop
      obtain ⟨ha2, hself2, hd2⟩ := ih s2 s1 h
      refine ⟨ha2.trans ha, hself2.trans hself, ?_⟩
      rw [hd2, hd, ha]
      cases h1 : HandleOp.is_init op <;> cases h2 : rest.any HandleOp.is_init <;>
        simp [List.any_cons, h1, h2]

/-- The lambda of `start` on a handle whose `data` is the address of its own
user-data block reaches the stored continuation and the `self` pointer. -/
theorem Async.trampoline_target_eq {P R : Type} (s : Async P R)
    (c : detail.AsyncContinuation P R)
    (hd : s._handle.data = Ptr.internal_data_of s.address)
    (hc : s.internal_data.continuation = some c) :
    Async.trampoline_target s = some (c, s.internal_data.self) := by
  simp [Async.trampoline_target, Async.deref_data, hd, hc]

/-- C10: on a handle object constructed at `address` and then taken through
any operations of the model (`ops`, none of them with undefined behaviour):
the `self` pointer of the user-data block is the owning object and is not null;
once one of the `init` overloads is among the operations, the `data` field of
the native handle is the address of the object's `internal_data`, and the
lambda of `start` recovers, through it, the stored continuation and exactly
the owning object. -/
theorem handle_data_self_and_data {A P R : Type} (address : Nat) (data0 : Ptr)
    (ops : List (HandleOp A P R)) (s : Async P R)
    (h : Async.apply_all ops (HandleBase.construct address data0) = some s) :
    (HandleBase.construct address data0 : Async P R).internal_data.self = Ptr.object address ∧
    s.internal_data.self = Ptr.object address ∧
    s.internal_data.self ≠ Ptr.null ∧
    (ops.any HandleOp.is_init = true →
      s._handle.data = Ptr.internal_data_of address ∧
      ∀ c, s.internal_data.continuation = some c →
        Async.trampoline_target s = some (c, Ptr.object address)) := by
  obtain ⟨ha, hself, hd⟩ := Async.apply_all_frame ops _ s h
  have hs : s.internal_data.self = Ptr.object address := by
    rw [hself]; rfl
  have haddr : s.address = address := by rw [ha]; rfl
  refine ⟨rfl, hs, ?_, ?_⟩
  · rw [hs]; exact fun hn => Ptr.noConfusion hn
  · intro hany
    rw [hany] at hd
    simp only [if_true] at hd
    have hd1 : s._handle.data = Ptr.internal_data_of address := by rw [hd]; rfl
    refine ⟨hd1, ?_⟩
    intro c hc
    have := Async.trampoline_target_eq s c (by rw [hd1, haddr]) hc
    rw [this, hs]

/-- C10 at a concrete history: construct at address 100, `init( l, ul )`,
`start`, `send( 21 )`, one wake callback, `init( l )`. -/
theorem handle_data_self_and_data_witness :
    (HandleBase.construct 100 Ptr.null : Async Int Int).internal_data.self = Ptr.object 100 ∧
    ({ address := 100,
       internal_data :=
        { continuation := some { f := fun x => Except.ok (x * 2), payload := some 21, promise := some 0 },
          close_continuation := none,
          self := Ptr.object 100 },
       _handle := { data := Ptr.internal_data_of 100, async_cb := some uv_async_cb.start_lambda,
                    pending := false },
       closing := false,
       _parent_loop := some 1,
       _loop := some 2,
       shared_states := [some (Except.ok 42)] } : Async Int Int).internal_data.self = Ptr.object 100 ∧
    Ptr.object 100 ≠ Ptr.null ∧
    ([HandleOp.init2 1 2, HandleOp.start 0 (fun x => Except.ok (x * 2)),
       HandleOp.send (fun (a : Int) => a) 21, HandleOp.run_wake,
       HandleOp.init1 (fun l => l + 1) 1].any (HandleOp.is_init (A := Int) (P := Int) (R := Int)) = true →
      Ptr.internal_data_of 100 = Ptr.internal_data_of 100 ∧
      ∀ c, some ({ f := fun x => Except.ok (x * 2), payload := some 21, promise := some 0 } :
            detail.AsyncContinuation Int Int) = some c →
        Async.trampoline_target
          ({ address := 100,
             internal_data :=
              { continuation := some { f := fun x => Except.ok (x * 2), payload := some 21, promise := some 0 },
                close_continuation := none,
                self := Ptr.object 100 },
             _handle := { data := Ptr.internal_data_of 100, async_cb := some uv_async_cb.start_lambda,
                          pending := false },
             closing := false,
             _parent_loop := some 1,
             _loop := some 2,
             shared_states := [some (Except.ok 42)] } : Async Int Int) = some (c, Ptr.object 100)) :=
  handle_data_self_and_data (A := Int) 100 Ptr.null
    [HandleOp.init2 1 2, HandleOp.start 0 (fun x => Except.ok (x * 2)),
     HandleOp.send (fun (a : Int) => a) 21, HandleOp.run_wake, HandleOp.init1 (fun l => l + 1) 1]
    { address := 100,
      internal_data :=
        { continuation := some { f := fun x => Except.ok (x * 2), payload := some 21, promise := some 0 },
          close_continuation := none,
          self := Ptr.object 100 },
      _handle := { data := Ptr.internal_data_of 100, async_cb := some uv_async_cb.start_lambda,
                   pending := false },
      closing := false,
      _parent_loop := some 1,
      _loop := some 2,
      shared_states := [some (Except.ok 42)] }
    rfl

/-- A fresh promise appended to the shared states is unfulfilled, and after
`dispatch` of the continuation that `init` produced it holds the handler's
outcome on the payload. -/
theorem AsyncContinuation.init_dispatch {A P R : Type} (mkP : A → P) (args : A)
    (c : detail.AsyncContinuation P R) (st : detail.SharedStates R) :
    (detail.AsyncContinuation.init mkP args c st).1 = st.length ∧
    detail.SharedStates.lookup (detail.AsyncContinuation.init mkP args c st).2.2 st.length = none ∧
    detail.SharedStates.lookup
      (detail.AsyncContinuation.dispatch (detail.AsyncContinuation.init mkP args c st).2.1
        (detail.AsyncContinuation.init mkP args c st).2.2) st.length
      = some (c.f (mkP args)) := by
  refine ⟨rfl, ?_, ?_⟩
  · simp [detail.AsyncContinuation.init, detail.SharedStates.lookup]
  · simp [detail.AsyncContinuation.init, detail.AsyncContinuation.dispatch,
      detail.SharedStates.lookup]

/-- The handle that `start` leaves when the native arming succeeds. -/
theorem Async.start_zero {P R : Type} (h : P → Except CppException R) (s : Async P R) :
    Async.start 0 h s =
      (Except.ok (),
       { s with
         internal_data :=
           { s.internal_data with continuation := some (detail.AsyncContinuation.construct h) },
         _handle := { s._handle with async_cb := some uv_async_cb.start_lambda, pending := false } }) := by
  simp [Async.start, uv_async_init]

/-- What `send` does on a handle whose continuation slot holds `c`. -/
theorem Async.send_armed {A P R : Type} (mkP : A → P) (args : A) (s : Async P R)
    (c : detail.AsyncContinuation P R) (hc : s.internal_data.continuation = some c) :
    Async.send mkP args s =
      SendResult.returned s.shared_states.length
        { s with
          internal_data :=
            { s.internal_data with
              continuation :=
                some { c with payload := some (mkP args), promise := some s.shared_states.length } },
          shared_states := s.shared_states ++ [none],
          _handle := { s._handle with pending := true } } := by
  simp [Async.send, hc, detail.AsyncContinuation.init, uv_async_send]

/-- What one iteration of the loop does on a handle with a pending wake-up,
the lambda of `start` installed, `data` pointing at its own user-data block and
`c` in the continuation slot. -/
theorem Async.run_wake_armed {P R : Type} (s : Async P R) (c : detail.AsyncContinuation P R)
    (hp : s._handle.pending = true) (hcb : s._handle.async_cb = some uv_async_cb.start_lambda)
    (hd : s._handle.data = Ptr.internal_data_of s.address)
    (hc : s.internal_data.continuation = some c) :
    Async.run_wake s =
      some { s with
        _handle := { s._handle with pending := false },
        shared_states := detail.AsyncContinuation.dispatch c s.shared_states } := by
  simp [Async.run_wake, hp, hcb, Async.start_lambda, Async.trampoline_target, Async.deref_data,
    hd, hc]

/-- An operation other than `start` on a handle armed with `h` is defined and
leaves the handle armed with `h`. -/
theorem Async.armed_apply {A P R : Type} (h : P → Except CppException R) (address : Nat)
    (op : HandleOp A P R) (s : Async P R) (harm : Async.armed_with h address s)
    (hop : HandleOp.is_start op = false) :
    ∃ s1, Async.apply op s = some s1 ∧ Async.armed_with h address s1 := by
  obtain ⟨ha, hself, hd, hcb, c, hc, hf⟩ := harm
  cases op with
  | init1 native l =>
    refine ⟨_, rfl, ?_⟩
    simp [Async.armed_with, HandleBase.init1, Async._init, Async._loop_init1, ha, hself, hcb, hc,
      hf]
  | init2 l ul =>
    refine ⟨_, rfl, ?_⟩
    simp [Async.armed_with, HandleBase.init2, Async._init, Async._loop_init2, ha, hself, hcb, hc,
      hf]
  | start status f => simp [HandleOp.is_start] at hop
  | send mkP args =>
    have hsend : Async.apply (HandleOp.send mkP args) s =
        some { s with
          internal_data :=
            { s.internal_data with
              continuation :=
                some { c with payload := some (mkP args), promise := some s.shared_states.length } },
          shared_states := s.shared_states ++ [none],
          _handle := { s._handle with pending := true } } := by
      simp only [Async.apply, Async.send_armed mkP args s c hc]
    refine ⟨_, hsend, ?_⟩
    simp [Async.armed_with, ha, hself, hd, hcb, hf]
  | run_wake =>
    cases hp : s._handle.pending
    · refine ⟨s, by simp [Async.apply, Async.run_wake, hp], ?_⟩
      exact ⟨ha, hself, hd, hcb, c, hc, hf⟩
    · refine ⟨_, by
        simp only [Async.apply]
        exact Async.run_wake_armed s c hp hcb (by rw [hd, ha]) hc, ?_⟩
      simp [Async.armed_with, ha, hself, hd, hcb, hc, hf]

/-- Operations other than `start` on a handle armed with `h` are all defined
and leave the handle armed with `h`. -/
theorem Async.armed_apply_all {A P R : Type} (h : P → Except CppException R) (address : Nat)
    (later : List (HandleOp A P R)) :
    ∀ s : Async P R, Async.armed_with h address s →
      (∀ op, op ∈ later → HandleOp.is_start op = false) →
      ∃ s2, Async.apply_all later s = some s2 ∧ Async.armed_with h address s2 := by
  induction later with
  | nil => intro s harm _; exact ⟨s, rfl, harm⟩
  | cons op rest ih =>
    intro s harm hall
    obtain ⟨s1, hs1, harm1⟩ :=
      Async.armed_apply h address op s harm (hall op (List.mem_cons_self op rest))
    obtain ⟨s2, hs2, harm2⟩ :=
      ih s1 harm1 (fun o ho => hall o (List.mem_cons_of_mem op ho))
    exact ⟨s2, by simp only [Async.apply_all, hs1]; exact hs2, harm2⟩

/-- On a handle armed with `h`, `send( args )` returns a future that is not
ready; the lambda of `start` reaches the continuation with the payload and the
promise of that future, and the owning object; and after one wake callback the
future holds `h( Payload( args ) )`. -/
theorem Async.armed_send_wake {A P R : Type} (h : P → Except CppException R) (address : Nat)
    (s : Async P R) (harm : Async.armed_with h address s) (mkP : A → P) (args : A) :
    ∃ fut s3,
      Async.send mkP args s = SendResult.returned fut s3 ∧
      detail.SharedStates.lookup s3.shared_states fut = none ∧
      Async.trampoline_target s3 =
        some ({ f := h, payload := some (mkP args), promise := some fut }, Ptr.object address) ∧
      ∃ s4, Async.run_wake s3 = some s4 ∧
        detail.SharedStates.lookup s4.shared_states fut = some (h (mkP args)) := by
  obtain ⟨ha, hself, hd, hcb, c, hc, hf⟩ := harm
  obtain ⟨-, hnone, hsome⟩ := AsyncContinuation.init_dispatch mkP args c s.shared_states
  refine ⟨_, _, Async.send_armed mkP args s c hc, ?_, ?_, ?_⟩
  · simpa [detail.AsyncContinuation.init] using hnone
  · rw [Async.trampoline_target_eq _
      { c with payload := some (mkP args), promise := some s.shared_states.length }]
    · simp [hself, hf]
    · simp [hd, ha]
    · rfl
  · refine ⟨_, Async.run_wake_armed _
      { c with payload := some (mkP args), promise := some s.shared_states.length }
      rfl ?_ ?_ rfl, ?_⟩
    · simp [hcb]
    · simp [hd, ha]
    · rw [← hf]
      simpa [detail.AsyncContinuation.init] using hsome

/-- C5: on a handle object (any state `s0` reached from construction) that
is attached with either `init` overload and armed with `start( h )`, the native
arming succeeding, and then taken through any later operations other than
`start` (earlier `send`s, wake callbacks, another `init`), all of which are
defined: every `send( args )` returns a future that is not ready yet; the
lambda installed by `start` then reaches, through the user-data block, the
continuation that `start` stored (holding `Payload( args )` and the promise of
that future) together with the owning object; and after the wake callback
has run once the future holds `h( Payload( args ) )`. -/
theorem async_send_then_wake {A P R : Type} (address : Nat) (data0 : Ptr)
    (ops : List (HandleOp A P R)) (s0 : Async P R)
    (hreach : Async.apply_all ops (HandleBase.construct address data0) = some s0)
    (attach : HandleOp A P R) (hattach : HandleOp.is_init attach = true)
    (h : P → Except CppException R) (later : List (HandleOp A P R))
    (hlater : ∀ op, op ∈ later → HandleOp.is_start op = false)
    (mkP : A → P) (args : A) :
    ∃ s1 s2 fut s3,
      Async.apply attach s0 = some s1 ∧
      Async.apply_all later (Async.start 0 h s1).2 = some s2 ∧
      Async.send mkP args s2 = SendResult.returned fut s3 ∧
      detail.SharedStates.lookup s3.shared_states fut = none ∧
      Async.trampoline_target s3 =
        some ({ f := h, payload := some (mkP args), promise := some fut }, Ptr.object address) ∧
      ∃ s4, Async.run_wake s3 = some s4 ∧
        detail.SharedStates.lookup s4.shared_states fut = some (h (mkP args)) := by
  obtain ⟨ha, hself, -⟩ := Async.apply_all_frame ops _ s0 hreach
  have ha0 : s0.address = address := by rw [ha]; rfl
  have hself0 : s0.internal_data.self = Ptr.object address := by rw [hself]; rfl
  have hex : ∃ s1, Async.apply attach s0 = some s1 := by
    cases attach with
    | init1 native l => exact ⟨_, rfl⟩
    | init2 l ul => exact ⟨_, rfl⟩
    | start status f => simp [HandleOp.is_init] at hattach
    | send mkP1 args1 => simp [HandleOp.is_init] at hattach
    | run_wake => simp [HandleOp.is_init] at hattach
  obtain ⟨s1, hs1⟩ := hex
  obtain ⟨ha1, hself1, hd1⟩ := Async.apply_frame attach s0 s1 hs1
  rw [hattach] at hd1
  simp only [if_true] at hd1
  have harm : Async.armed_with h address (Async.start 0 h s1).2 := by
    rw [Async.start_zero]
    refine ⟨?_, ?_, ?_, rfl, detail.AsyncContinuation.construct h, rfl, rfl⟩
    · simp [ha1, ha0]
    · simp [hself1, hself0]
    · simp [hd1, ha0]
  obtain ⟨s2, hs2, harm2⟩ := Async.armed_apply_all h address later _ harm hlater
  obtain ⟨fut, s3, h3, h4, h5, h6⟩ := Async.armed_send_wake h address s2 harm2 mkP args
  exact ⟨s1, s2, fut, s3, hs1, hs2, h3, h4, h5, h6⟩

/-- C5 at the example of the spec, after an earlier `send( 1 )` with its wake
callback and a `send( 2 )` still pending: `h = x * 2` and `send( 21 )` give
42. -/
theorem async_send_then_wake_witness :
    ∃ s1 s2 fut s3,
      Async.apply (HandleOp.init2 (A := Int) 1 2) (HandleBase.construct 100 Ptr.null) = some s1 ∧
      Async.apply_all
        [HandleOp.send (fun (a : Int) => a) 1, HandleOp.run_wake,
         HandleOp.send (fun (a : Int) => a) 2]
        (Async.start 0 (fun x => Except.ok (x * 2)) s1).2 = some s2 ∧
      Async.send (fun (a : Int) => a) 21 s2 = SendResult.returned fut s3 ∧
      detail.SharedStates.lookup s3.shared_states fut = none ∧
      Async.trampoline_target s3 =
        some ({ f := fun x => Except.ok (x * 2), payload := some 21, promise := some fut },
          Ptr.object 100) ∧
      ∃ s4, Async.run_wake s3 = some s4 ∧
        detail.SharedStates.lookup s4.shared_states fut = some (Except.ok 42) :=
  async_send_then_wake (A := Int) (P := Int) (R := Int) 100 Ptr.null []
    (HandleBase.construct 100 Ptr.null) rfl (HandleOp.init2 1 2) rfl
    (fun x => Except.ok (x * 2))
    [HandleOp.send (fun (a : Int) => a) 1, HandleOp.run_wake,
     HandleOp.send (fun (a : Int) => a) 2]
    (fun op hop => by
      simp only [List.mem_cons, List.mem_singleton, List.not_mem_nil, or_false] at hop
      rcases hop with h | h | h <;> subst h <;> rfl)
    (fun a => a) 21

/-- C6: `send` has no check of the state of the handle.  On a handle that was
never armed (constructed at address 100, attached, `start` never called) the
continuation slot is empty and `send( 21 )` dereferences the null pointer:
the outcome is undefined behaviour, not an exception.  On an armed handle that
is closing, `send( 21 )` calls `init` on the continuation (the payload is
stored and a promise made), requests the wake-up and returns the future. -/
theorem async_send_without_state_check :
    Async.send (P := Int) (R := Int) (fun (a : Int) => a) 21
        (HandleBase.init2 1 2 (HandleBase.construct 100 Ptr.null))
      = SendResult.undefined_behaviour ∧
    (∀ (s : Async Int Int), s.internal_data.continuation = none →
      Async.send (fun (a : Int) => a) 21 s = SendResult.undefined_behaviour) ∧
    (∀ (s : Async Int Int) (c : detail.AsyncContinuation Int Int),
      s.internal_data.continuation = some c →
      ∃ s1, Async.send (fun (a : Int) => a) 21 { s with closing := true }
          = SendResult.returned s.shared_states.length s1 ∧
        s1._handle.pending = true ∧
        s1.internal_data.continuation =
          some { c with payload := some 21, promise := some s.shared_states.length }) := by
  refine ⟨rfl, ?_, ?_⟩
  · intro s hs
    simp [Async.send, hs]
  · intro s c hc
    exact ⟨_, Async.send_armed (fun (a : Int) => a) 21 { s with closing := true } c hc, rfl, rfl⟩

/-- C7: `start` returns normally whatever status `uv_async_init` comes back
with; with the status `UV_EINVAL` (-22) it returns normally, the continuation
stored and no callback installed. -/
theorem async_start_ignores_status :
    (∀ (status : Int) (f : Int → Except CppException Int) (s : Async Int Int),
      (Async.start status f s).1 = Except.ok ()) ∧
    (Async.start (-22) (fun x => Except.ok (x * 2))
        (HandleBase.init2 1 2 (HandleBase.construct 100 Ptr.null) : Async Int Int)).1
      = Except.ok () ∧
    (Async.start (-22) (fun x => Except.ok (x * 2))
        (HandleBase.init2 1 2 (HandleBase.construct 100 Ptr.null) : Async Int Int)).2._handle.async_cb
      = none :=
  ⟨fun _ _ _ => rfl, rfl, rfl⟩

/-- The first call on a freshly constructed object whose readiness flag is
`false`, `init` returning `v`: `init` runs, the call returns `v`, and the object
is ready and holds `v`. -/
theorem LazyStatic.call_first {σ T : Type} (init : Comp σ T) (c : LazyCall) (v0 v : T)
    (w w1 : σ) (hinit : init w = (Except.ok v, w1)) :
    detail.LazyStatic.call init c (detail.LazyStatic.construct v0 false) w =
      (Outcome.returned v, { value := v, once := true, ran := true, p := true }, w1) := by
  cases c <;>
    simp [detail.LazyStatic.call, detail.LazyStatic.conversion, detail.LazyStatic.get,
      detail.LazyStatic.call_once_run, detail.LazyStatic.run, detail.LazyStatic.p_set_value,
      detail.LazyStatic.construct, hinit]

/-- A thread's own step keeps the shared state consistent and takes the thread
to a place that the new shared state allows. -/
theorem LazyStatic.get_step_own {σ T : Type} (init : Comp σ T) (v : T) (w w1 : σ)
    (hinit : init w = (Except.ok v, w1)) (pc : GetPC T) (sh : LazyShared σ T)
    (hg : LazyShared.global_ok v w w1 sh) (ha : GetPC.allowed v w w1 sh pc) :
    LazyShared.global_ok v w w1 (detail.LazyStatic.get_step init pc sh).2 ∧
    GetPC.allowed v w w1 (detail.LazyStatic.get_step init pc sh).2
      (detail.LazyStatic.get_step init pc sh).1 := by
  have hg0 := hg
  obtain ⟨g1, g2, g3⟩ := hg
  cases pc with
  | check_ran =>
    cases hr : sh.obj.ran
    · simp only [detail.LazyStatic.get_step, hr]
      exact ⟨hg0, True.intro⟩
    · simp only [detail.LazyStatic.get_step, hr]
      exact ⟨hg0, hr⟩
  | call_once =>
    cases ho : sh.obj.once
    · cases hact : sh.active
      · obtain ⟨h1, h2, h3⟩ := g3 hact ho
        simp [detail.LazyStatic.get_step, ho, hact, LazyShared.global_ok, GetPC.allowed, h1, h2, h3]
      · simp only [detail.LazyStatic.get_step, ho, hact]
        exact ⟨hg0, True.intro⟩
    · simp only [detail.LazyStatic.get_step, ho]
      exact ⟨hg0, ho⟩
  | run_init =>
    obtain ⟨a1, a2, a3, a4, a5⟩ := ha
    simp [detail.LazyStatic.get_step, a5, hinit, LazyShared.global_ok, GetPC.allowed, a1, a2, a3, a4]
  | run_set_value =>
    obtain ⟨a1, a2, a3, a4, a5, a6⟩ := ha
    simp [detail.LazyStatic.get_step, detail.LazyStatic.p_set_value, LazyShared.global_ok,
      GetPC.allowed, a1, a2, a3, a4, a5, a6]
  | run_set_ran =>
    obtain ⟨a1, a2, a3, a4, a5, a6⟩ := ha
    simp [detail.LazyStatic.get_step, LazyShared.global_ok, GetPC.allowed, a1, a2, a3, a4, a5, a6]
  | call_once_return =>
    obtain ⟨a1, a2, a3, a4, a5, a6⟩ := ha
    simp [detail.LazyStatic.get_step, LazyShared.global_ok, GetPC.allowed, a1, a2, a3, a4, a5, a6]
  | recheck_ran =>
    have ho : sh.obj.once = true := ha
    have hr := (g2 ho).1
    simp only [detail.LazyStatic.get_step, hr]
    exact ⟨hg0, hr⟩
  | wait => exact absurd ha (by simp [GetPC.allowed])
  | return_value =>
    have hr : sh.obj.ran = true := ha
    simp only [detail.LazyStatic.get_step]
    exact ⟨hg0, (g1 hr).2.2, hr⟩
  | returned x =>
    simp only [detail.LazyStatic.get_step]
    exact ⟨hg0, ha⟩
  | raised e => exact absurd ha (by simp [GetPC.allowed])

/-- A step of one thread leaves every other thread at a place that the new
shared state allows, as long as the two are not both executing the callable. -/
theorem LazyStatic.get_step_other {σ T : Type} (init : Comp σ T) (v : T) (w w1 : σ)
    (hinit : init w = (Except.ok v, w1)) (pc q : GetPC T) (sh : LazyShared σ T)
    (ha : GetPC.allowed v w w1 sh pc) (hq : GetPC.allowed v w w1 sh q)
    (hx : GetPC.in_run pc = true → GetPC.in_run q = true → False) :
    GetPC.allowed v w w1 (detail.LazyStatic.get_step init pc sh).2 q := by
  cases pc with
  | check_ran =>
    simp only [detail.LazyStatic.get_step]
    split <;> exact hq
  | call_once =>
    simp only [detail.LazyStatic.get_step]
    split
    · exact hq
    · split
      · exact hq
      · rename_i hact
        cases q <;> simp_all [GetPC.allowed]
  | run_init =>
    obtain ⟨a1, a2, a3, a4, a5⟩ := ha
    simp only [detail.LazyStatic.get_step, a5, hinit]
    cases q <;> simp_all [GetPC.allowed, GetPC.in_run]
  | run_set_value =>
    obtain ⟨a1, a2, a3, a4, a5, a6⟩ := ha
    simp only [detail.LazyStatic.get_step, detail.LazyStatic.p_set_value, a4]
    cases q <;> simp_all [GetPC.allowed, GetPC.in_run]
  | run_set_ran =>
    obtain ⟨a1, a2, a3, a4, a5, a6⟩ := ha
    simp only [detail.LazyStatic.get_step]
    cases q <;> simp_all [GetPC.allowed, GetPC.in_run]
  | call_once_return =>
    obtain ⟨a1, a2, a3, a4, a5, a6⟩ := ha
    simp only [detail.LazyStatic.get_step]
    cases q <;> simp_all [GetPC.allowed, GetPC.in_run]
  | recheck_ran =>
    simp only [detail.LazyStatic.get_step]
    split <;> exact hq
  | wait => exact absurd ha (by simp [GetPC.allowed])
  | return_value => exact hq
  | returned x => exact hq
  | raised e => exact absurd ha (by simp [GetPC.allowed])

/-- A thread starts executing the callable only when no thread is. -/
theorem LazyStatic.get_step_enter {σ T : Type} (init : Comp σ T) (pc : GetPC T)
    (sh : LazyShared σ T) (h0 : GetPC.in_run pc = false)
    (h1 : GetPC.in_run (detail.LazyStatic.get_step init pc sh).1 = true) :
    sh.active = false := by
  cases pc with
  | call_once =>
    simp only [detail.LazyStatic.get_step] at h1
    cases ho : sh.obj.once <;> cases hact : sh.active <;> simp_all [GetPC.in_run]
  | check_ran =>
    simp only [detail.LazyStatic.get_step] at h1
    cases hr : sh.obj.ran <;> simp_all [GetPC.in_run]
  | recheck_ran =>
    simp only [detail.LazyStatic.get_step] at h1
    cases hr : sh.obj.ran <;> simp_all [GetPC.in_run]
  | wait =>
    simp only [detail.LazyStatic.get_step] at h1
    cases hr : sh.obj.p <;> simp_all [GetPC.in_run]
  | return_value => simp [detail.LazyStatic.get_step, GetPC.in_run] at h1
  | returned x => simp [detail.LazyStatic.get_step, GetPC.in_run] at h1
  | raised e => simp [detail.LazyStatic.get_step, GetPC.in_run] at h1
  | run_init => simp [GetPC.in_run] at h0
  | run_set_value => simp [GetPC.in_run] at h0
  | run_set_ran => simp [GetPC.in_run] at h0
  | call_once_return => simp [GetPC.in_run] at h0

/-- A step of a thread that is not executing the callable, and does not start
to, leaves `active` as it is. -/
theorem LazyStatic.get_step_active {σ T : Type} (init : Comp σ T) (pc : GetPC T)
    (sh : LazyShared σ T) (h0 : GetPC.in_run pc = false)
    (h1 : GetPC.in_run (detail.LazyStatic.get_step init pc sh).1 = false) :
    (detail.LazyStatic.get_step init pc sh).2.active = sh.active := by
  cases pc with
  | call_once =>
    simp only [detail.LazyStatic.get_step] at h1 ⊢
    cases ho : sh.obj.once <;> cases hact : sh.active <;> simp_all [GetPC.in_run]
  | check_ran =>
    simp only [detail.LazyStatic.get_step]
    split <;> rfl
  | recheck_ran =>
    simp only [detail.LazyStatic.get_step]
    split <;> rfl
  | wait =>
    simp only [detail.LazyStatic.get_step]
    split <;> rfl
  | return_value => rfl
  | returned x => rfl
  | raised e => rfl
  | run_init => simp [GetPC.in_run] at h0
  | run_set_value => simp [GetPC.in_run] at h0
  | run_set_ran => simp [GetPC.in_run] at h0
  | call_once_return => simp [GetPC.in_run] at h0

/-- A thread that executes the callable and stops doing so clears `active`. -/
theorem LazyStatic.get_step_leave {σ T : Type} (init : Comp σ T) (v : T) (w w1 : σ)
    (hinit : init w = (Except.ok v, w1)) (pc : GetPC T) (sh : LazyShared σ T)
    (ha : GetPC.allowed v w w1 sh pc) (h0 : GetPC.in_run pc = true)
    (h1 : GetPC.in_run (detail.LazyStatic.get_step init pc sh).1 = false) :
    (detail.LazyStatic.get_step init pc sh).2.active = false := by
  cases pc with
  | run_init =>
    obtain ⟨a1, a2, a3, a4, a5⟩ := ha
    simp [detail.LazyStatic.get_step, a5, hinit, GetPC.in_run] at h1
  | run_set_value =>
    obtain ⟨a1, a2, a3, a4, a5, a6⟩ := ha
    simp [detail.LazyStatic.get_step, detail.LazyStatic.p_set_value, a4, GetPC.in_run] at h1
  | run_set_ran => simp [detail.LazyStatic.get_step, GetPC.in_run] at h1
  | call_once_return => simp [detail.LazyStatic.get_step]
  | call_once => simp [GetPC.in_run] at h0
  | check_ran => simp [GetPC.in_run] at h0
  | recheck_ran => simp [GetPC.in_run] at h0
  | wait => simp [GetPC.in_run] at h0
  | return_value => simp [GetPC.in_run] at h0
  | returned x => simp [GetPC.in_run] at h0
  | raised e => simp [GetPC.in_run] at h0

/-- A step that moves a thread lowers its rank. -/
theorem LazyStatic.get_step_rank {σ T : Type} (init : Comp σ T) (v : T) (w w1 : σ)
    (hinit : init w = (Except.ok v, w1)) (pc : GetPC T) (sh : LazyShared σ T)
    (ha : GetPC.allowed v w w1 sh pc)
    (hne : (detail.LazyStatic.get_step init pc sh).1 ≠ pc) :
    GetPC.rank (detail.LazyStatic.get_step init pc sh).1 < GetPC.rank pc := by
  cases pc with
  | check_ran =>
    simp only [detail.LazyStatic.get_step]
    split <;> simp [GetPC.rank]
  | call_once =>
    simp only [detail.LazyStatic.get_step] at hne ⊢
    cases ho : sh.obj.once <;> cases hact : sh.active <;> simp_all [GetPC.rank]
  | run_init =>
    obtain ⟨a1, a2, a3, a4, a5⟩ := ha
    simp [detail.LazyStatic.get_step, a5, hinit, GetPC.rank]
  | run_set_value =>
    obtain ⟨a1, a2, a3, a4, a5, a6⟩ := ha
    simp [detail.LazyStatic.get_step, detail.LazyStatic.p_set_value, a4, GetPC.rank]
  | run_set_ran => simp [detail.LazyStatic.get_step, GetPC.rank]
  | call_once_return => simp [detail.LazyStatic.get_step, GetPC.rank]
  | recheck_ran =>
    simp only [detail.LazyStatic.get_step]
    split <;> simp [GetPC.rank]
  | wait => exact absurd ha (by simp [GetPC.allowed])
  | return_value => simp [detail.LazyStatic.get_step, GetPC.rank]
  | returned x => simp [detail.LazyStatic.get_step] at hne
  | raised e => exact absurd ha (by simp [GetPC.allowed])

/-- A thread executing the callable stands there only while `active` is set. -/
theorem GetPC.allowed_in_run {σ T : Type} (v : T) (w w1 : σ) (sh : LazyShared σ T)
    (q : GetPC T) (hq : GetPC.allowed v w w1 sh q) (hr : GetPC.in_run q = true) :
    sh.active = true := by
  cases q <;> simp_all [GetPC.allowed, GetPC.in_run]

/-- What a step of thread `i` does to the list of threads. -/
theorem LazySystem.step_eq {σ T : Type} (init : Comp σ T) (i : Nat) (s : LazySystem σ T)
    (pc : GetPC T) (h : s.threads[i]? = some pc) :
    LazySystem.step init i s =
      { shared := (detail.LazyStatic.get_step init pc s.shared).2,
        threads := s.threads.set i (detail.LazyStatic.get_step init pc s.shared).1 } := by
  simp [LazySystem.step, h]

/-- A step of a thread that is not there changes nothing. -/
theorem LazySystem.step_none {σ T : Type} (init : Comp σ T) (i : Nat) (s : LazySystem σ T)
    (h : s.threads[i]? = none) : LazySystem.step init i s = s := by
  simp [LazySystem.step, h]

/-- The number of threads does not change. -/
theorem LazySystem.step_length {σ T : Type} (init : Comp σ T) (i : Nat) (s : LazySystem σ T) :
    (LazySystem.step init i s).threads.length = s.threads.length := by
  cases h : s.threads[i]? with
  | none => rw [LazySystem.step_none init i s h]
  | some pc => rw [LazySystem.step_eq init i s pc h]; simp

/-- The number of threads does not change along a schedule. -/
theorem LazySystem.run_length {σ T : Type} (init : Comp σ T) (sched : List Nat) :
    ∀ s : LazySystem σ T, (LazySystem.run init sched s).threads.length = s.threads.length := by
  induction sched with
  | nil => intro s; rfl
  | cons i rest ih =>
    intro s
    simp only [LazySystem.run]
    rw [ih, LazySystem.step_length]

/-- The invariant holds at the start. -/
theorem LazySystem.initial_inv {σ T : Type} (n : Nat) (v0 v : T) (w w1 : σ) :
    LazySystem.Inv v w w1 (LazySystem.initial n v0 false w) := by
  refine ⟨?_, ?_, ?_, ?_⟩
  · simp [LazyShared.global_ok, LazySystem.initial, detail.LazyStatic.construct]
  · intro i pc h
    simp only [LazySystem.initial, List.getElem?_replicate] at h
    split at h
    · cases h; exact True.intro
    · cases h
  · intro i j pci pcj hi hj ri rj
    simp only [LazySystem.initial, List.getElem?_replicate] at hi
    split at hi
    · cases hi; simp [GetPC.in_run] at ri
    · cases hi
  · intro h
    simp [LazySystem.initial] at h

/-- The invariant is kept by every step of every thread. -/
theorem LazySystem.step_inv {σ T : Type} (init : Comp σ T) (v : T) (w w1 : σ)
    (hinit : init w = (Except.ok v, w1)) (i : Nat) (s : LazySystem σ T)
    (hI : LazySystem.Inv v w w1 s) : LazySystem.Inv v w w1 (LazySystem.step init i s) := by
  cases h : s.threads[i]? with
  | none => rw [LazySystem.step_none init i s h]; exact hI
  | some pc =>
    rw [LazySystem.step_eq init i s pc h]
    obtain ⟨hg, hall, huniq, hact⟩ := hI
    have hpc := hall i pc h
    obtain ⟨hg1, hpc1⟩ := LazyStatic.get_step_own init v w w1 hinit pc s.shared hg hpc
    have hlt : i < s.threads.length := by
      obtain ⟨hl, -⟩ := List.getElem?_eq_some.mp h
      exact hl
    have hother : ∀ (k : Nat) (q : GetPC T), i ≠ k → s.threads[k]? = some q →
        GetPC.in_run q = true → GetPC.in_run pc = false ∧
          GetPC.in_run (detail.LazyStatic.get_step init pc s.shared).1 = false := by
      intro k q hik hk rq
      have hpcr : GetPC.in_run pc = false := by
        cases hr : GetPC.in_run pc
        · rfl
        · exact absurd (huniq i k pc q h hk hr rq) hik
      refine ⟨hpcr, ?_⟩
      cases hr1 : GetPC.in_run (detail.LazyStatic.get_step init pc s.shared).1
      · rfl
      · have h1 := LazyStatic.get_step_enter init pc s.shared hpcr hr1
        have h2 := GetPC.allowed_in_run v w w1 s.shared q (hall k q hk) rq
        rw [h1] at h2
        cases h2
    refine ⟨hg1, ?_, ?_, ?_⟩
    · intro k q hk
      by_cases hik : i = k
      · subst hik
        simp only [List.getElem?_set_self hlt, Option.some.injEq] at hk
        subst hk
        exact hpc1
      · simp only [List.getElem?_set_ne hik] at hk
        exact LazyStatic.get_step_other init v w w1 hinit pc q s.shared hpc (hall k q hk)
          (fun h1 h2 => hik (huniq i k pc q h hk h1 h2))
    · intro k l qk ql hk hl rk rl
      by_cases hik : i = k
      · by_cases hil : i = l
        · rw [← hik, ← hil]
        · subst hik
          simp only [List.getElem?_set_self hlt, Option.some.injEq] at hk
          subst hk
          simp only [List.getElem?_set_ne hil] at hl
          have := (hother l ql hil hl rl).2
          rw [this] at rk
          cases rk
      · by_cases hil : i = l
        · subst hil
          simp only [List.getElem?_set_self hlt, Option.some.injEq] at hl
          subst hl
          simp only [List.getElem?_set_ne hik] at hk
          have := (hother k qk hik hk rk).2
          rw [this] at rl
          cases rl
        · simp only [List.getElem?_set_ne hik] at hk
          simp only [List.getElem?_set_ne hil] at hl
          exact huniq k l qk ql hk hl rk rl
    · intro hact1
      cases hr1 : GetPC.in_run (detail.LazyStatic.get_step init pc s.shared).1
      · cases hr0 : GetPC.in_run pc
        · have hsame := LazyStatic.get_step_active init pc s.shared hr0 hr1
          simp only at hact1
          rw [hsame] at hact1
          obtain ⟨j, q, hj, rq⟩ := hact hact1
          have hij : i ≠ j := by
            intro hij
            subst hij
            rw [h] at hj
            cases hj
            rw [hr0] at rq
            cases rq
          exact ⟨j, q, by simp only [List.getElem?_set_ne hij]; exact hj, rq⟩
        · have hfalse := LazyStatic.get_step_leave init v w w1 hinit pc s.shared hpc hr0 hr1
          simp only at hact1
          rw [hfalse] at hact1
          cases hact1
      · exact ⟨i, _, by simp only [List.getElem?_set_self hlt], hr1⟩

/-- The invariant holds after every schedule. -/
theorem LazySystem.run_inv {σ T : Type} (init : Comp σ T) (v : T) (w w1 : σ)
    (hinit : init w = (Except.ok v, w1)) (sched : List Nat) :
    ∀ s : LazySystem σ T, LazySystem.Inv v w w1 s →
      LazySystem.Inv v w w1 (LazySystem.run init sched s) := by
  induction sched with
  | nil => intro s hI; exact hI
  | cons i rest ih =>
    intro s hI
    exact ih _ (LazySystem.step_inv init v w w1 hinit i s hI)

/-- A thread that has not finished moves, unless it stands at `call_once`
while another thread executes the callable. -/
theorem LazyStatic.get_step_moves {σ T : Type} (init : Comp σ T) (v : T) (w w1 : σ)
    (hinit : init w = (Except.ok v, w1)) (pc : GetPC T) (sh : LazyShared σ T)
    (ha : GetPC.allowed v w w1 sh pc) (hfin : ∀ x, pc ≠ GetPC.returned x)
    (hco : pc = GetPC.call_once → sh.obj.once = true ∨ sh.active = false) :
    (detail.LazyStatic.get_step init pc sh).1 ≠ pc := by
  cases pc with
  | check_ran =>
    simp only [detail.LazyStatic.get_step]
    split <;> simp
  | call_once =>
    simp only [detail.LazyStatic.get_step]
    rcases hco rfl with h | h
    · simp [h]
    · cases ho : sh.obj.once <;> simp [h]
  | run_init =>
    obtain ⟨a1, a2, a3, a4, a5⟩ := ha
    simp [detail.LazyStatic.get_step, a5, hinit]
  | run_set_value =>
    obtain ⟨a1, a2, a3, a4, a5, a6⟩ := ha
    simp [detail.LazyStatic.get_step, detail.LazyStatic.p_set_value, a4]
  | run_set_ran => simp [detail.LazyStatic.get_step]
  | call_once_return => simp [detail.LazyStatic.get_step]
  | recheck_ran =>
    simp only [detail.LazyStatic.get_step]
    split <;> simp
  | wait => exact absurd ha (by simp [GetPC.allowed])
  | return_value => simp [detail.LazyStatic.get_step]
  | returned x => exact absurd rfl (hfin x)
  | raised e => exact absurd ha (by simp [GetPC.allowed])

/-- No deadlock: while some thread has not finished, some thread can move. -/
theorem LazySystem.progress {σ T : Type} (init : Comp σ T) (v : T) (w w1 : σ)
    (hinit : init w = (Except.ok v, w1)) (s : LazySystem σ T)
    (hI : LazySystem.Inv v w w1 s) (i : Nat) (pc : GetPC T) (h : s.threads[i]? = some pc)
    (hfin : ∀ x, pc ≠ GetPC.returned x) :
    ∃ (j : Nat) (q : GetPC T), s.threads[j]? = some q ∧
      (detail.LazyStatic.get_step init q s.shared).1 ≠ q := by
  obtain ⟨hg, hall, huniq, hact⟩ := hI
  by_cases hblock : pc = GetPC.call_once ∧ s.shared.obj.once = false ∧ s.shared.active = true
  · obtain ⟨j, q, hj, rq⟩ := hact hblock.2.2
    refine ⟨j, q, hj, LazyStatic.get_step_moves init v w w1 hinit q s.shared (hall j q hj) ?_ ?_⟩
    · intro x hx
      rw [hx] at rq
      simp [GetPC.in_run] at rq
    · intro hx
      rw [hx] at rq
      simp [GetPC.in_run] at rq
  · refine ⟨i, pc, h, LazyStatic.get_step_moves init v w w1 hinit pc s.shared (hall i pc h) hfin ?_⟩
    intro hpc
    cases ho : s.shared.obj.once
    · cases ha : s.shared.active
      · exact Or.inr rfl
      · exact absurd ⟨hpc, ho, ha⟩ hblock
    · exact Or.inl rfl

/-- Replacing a thread by one of lower rank lowers the sum of the ranks. -/
theorem GetPC.rank_sum_set {T : Type} (l : List (GetPC T)) :
    ∀ (i : Nat) (a b : GetPC T), l[i]? = some a → GetPC.rank b < GetPC.rank a →
      ((l.set i b).map GetPC.rank).sum < (l.map GetPC.rank).sum := by
  induction l with
  | nil => intro i a b h; simp at h
  | cons x rest ih =>
    intro i a b h hlt
    cases i with
    | zero =>
      simp only [List.getElem?_cons_zero, Option.some.injEq] at h
      subst h
      simp only [List.set_cons_zero, List.map_cons, List.sum_cons]
      omega
    | succ k =>
      simp only [List.getElem?_cons_succ] at h
      have := ih k a b h hlt
      simp only [List.set_cons_succ, List.map_cons, List.sum_cons]
      omega

/-- A schedule followed by another. -/
theorem LazySystem.run_append {σ T : Type} (init : Comp σ T) (a b : List Nat) :
    ∀ s : LazySystem σ T,
      LazySystem.run init (a ++ b) s = LazySystem.run init b (LazySystem.run init a s) := by
  induction a with
  | nil => intro s; rfl
  | cons i rest ih => intro s; simp only [List.cons_append, LazySystem.run]; exact ih _

/-- From every state that satisfies the invariant some schedule takes all the
threads to the end of `get()`. -/
theorem LazySystem.completes {σ T : Type} (init : Comp σ T) (v : T) (w w1 : σ)
    (hinit : init w = (Except.ok v, w1)) (m : Nat) :
    ∀ s : LazySystem σ T, LazySystem.Inv v w w1 s → LazySystem.total_rank s ≤ m →
      ∃ ext : List Nat, ∀ (i : Nat), i < s.threads.length →
        (LazySystem.run init ext s).threads[i]? = some (GetPC.returned v) := by
  induction m with
  | zero =>
    intro s hI hm
    refine ⟨[], ?_⟩
    intro i hi
    simp only [LazySystem.run]
    obtain ⟨pc, hpc⟩ : ∃ pc, s.threads[i]? = some pc := ⟨s.threads[i], List.getElem?_eq_getElem hi⟩
    by_cases hfin : ∀ x, pc ≠ GetPC.returned x
    · obtain ⟨j, q, hj, hmove⟩ := LazySystem.progress init v w w1 hinit s hI i pc hpc hfin
      have hr := LazyStatic.get_step_rank init v w w1 hinit q s.shared (hI.2.1 j q hj) hmove
      have hs := GetPC.rank_sum_set s.threads j q _ hj hr
      simp only [LazySystem.total_rank] at hm
      omega
    · push_neg at hfin
      obtain ⟨x, hx⟩ := hfin
      rw [hx] at hpc
      have := hI.2.1 i _ hpc
      rw [hpc, this.1]
  | succ m ih =>
    intro s hI hm
    by_cases hall : ∀ (i : Nat), i < s.threads.length → s.threads[i]? = some (GetPC.returned v)
    · exact ⟨[], fun i hi => hall i hi⟩
    · push_neg at hall
      obtain ⟨i, hi, hne⟩ := hall
      obtain ⟨pc, hpc⟩ : ∃ pc, s.threads[i]? = some pc := ⟨s.threads[i], List.getElem?_eq_getElem hi⟩
      have hfin : ∀ x, pc ≠ GetPC.returned x := by
        intro x hx
        rw [hx] at hpc
        have := hI.2.1 i _ hpc
        rw [this.1] at hpc
        exact hne hpc
      obtain ⟨j, q, hj, hmove⟩ := LazySystem.progress init v w w1 hinit s hI i pc hpc hfin
      have hr := LazyStatic.get_step_rank init v w w1 hinit q s.shared (hI.2.1 j q hj) hmove
      have hs := GetPC.rank_sum_set s.threads j q _ hj hr
      have hI1 := LazySystem.step_inv init v w w1 hinit j s hI
      have hm1 : LazySystem.total_rank (LazySystem.step init j s) ≤ m := by
        rw [LazySystem.step_eq init j s q hj]
        simp only [LazySystem.total_rank] at hm ⊢
        omega
      obtain ⟨ext, hext⟩ := ih _ hI1 hm1
      refine ⟨j :: ext, ?_⟩
      intro k hk
      simp only [LazySystem.run]
      exact hext k (by rw [LazySystem.step_length]; exact hk)

/-- The steps of `get()` taken by one thread on its own, from any state of the
object, add up to `get()`: same outcome, same object, same world. -/
theorem LazyStatic.get_step_refines_get {σ T : Type} (init : Comp σ T)
    (obj : detail.LazyStatic T) (w : σ) :
    ((LazySystem.run init [0, 0, 0, 0, 0, 0, 0, 0]
        { shared := { obj := obj, active := false, world := w },
          threads := [GetPC.check_ran] }).threads.map GetPC.outcome
      = [some (detail.LazyStatic.get init obj w).1]) ∧
    (LazySystem.run init [0, 0, 0, 0, 0, 0, 0, 0]
        { shared := { obj := obj, active := false, world := w },
          threads := [GetPC.check_ran] }).shared =
      { obj := (detail.LazyStatic.get init obj w).2.1, active := false,
        world := (detail.LazyStatic.get init obj w).2.2 } := by
  obtain ⟨value, once, ran, p⟩ := obj
  rcases hi : init w with ⟨r, w1⟩
  cases r <;> cases once <;> cases ran <;> cases p <;>
    simp [LazySystem.run, LazySystem.step, detail.LazyStatic.get_step, detail.LazyStatic.get,
      detail.LazyStatic.call_once_run, detail.LazyStatic.run, detail.LazyStatic.p_set_value,
      GetPC.outcome, hi]

/-- C9: `n` threads call `get()` on one object whose readiness flag is `false`
after construction (as in static storage), their steps interleaved by an
arbitrary schedule, `init()` returning `v` and taking the world from `w` to
`w1`.  At every moment: a call that has returned has returned `v`, and then the
world is `w1`, the effect of one run of `init()`; the world is `w` or `w1`, so
`init()` has run at most once; no thread has raised, and none is waiting on the
completion future, since no thread gets past `call_once` before the value is
ready; if no thread can take a step, all `n` calls have returned `v`; and from
every such moment some continuation takes all `n` calls to their return of
`v`.  A thread after `call_once` (at the second test of `ran`, or waiting on
the future) changes nothing shared and does not enter `run()`, so it does not
call `init()`.  The steps of a thread that is not the one to run `init()`, in
any shared state: at `call_once` it goes on when the flag is claimed and waits
while another thread executes `run()`; at the second test it goes to
`s.wait()` when `ran` is false and to the return when `ran` is true; in
`s.wait()` it stays while the promise is unfulfilled and goes to the return
once it is fulfilled. -/
theorem lazy_static_concurrent_get {σ T : Type} (init : Comp σ T) (v0 v : T) (w w1 : σ)
    (hinit : init w = (Except.ok v, w1)) (n : Nat) (sched : List Nat) :
    (∀ (i : Nat) (x : T),
      (LazySystem.run init sched (LazySystem.initial n v0 false w)).threads[i]? =
          some (GetPC.returned x) →
        x = v ∧ (LazySystem.run init sched (LazySystem.initial n v0 false w)).shared.world = w1) ∧
    ((LazySystem.run init sched (LazySystem.initial n v0 false w)).shared.world = w ∨
      (LazySystem.run init sched (LazySystem.initial n v0 false w)).shared.world = w1) ∧
    (∀ (i : Nat) (pc : GetPC T),
      (LazySystem.run init sched (LazySystem.initial n v0 false w)).threads[i]? = some pc →
        pc ≠ GetPC.wait ∧ ∀ e, pc ≠ GetPC.raised e) ∧
    ((∀ (i : Nat), i < n →
        (LazySystem.step init i
          (LazySystem.run init sched (LazySystem.initial n v0 false w))).threads[i]? =
        (LazySystem.run init sched (LazySystem.initial n v0 false w)).threads[i]?) →
      ∀ (i : Nat), i < n →
        (LazySystem.run init sched (LazySystem.initial n v0 false w)).threads[i]? =
          some (GetPC.returned v)) ∧
    (∃ ext : List Nat, ∀ (i : Nat), i < n →
      (LazySystem.run init (sched ++ ext) (LazySystem.initial n v0 false w)).threads[i]? =
        some (GetPC.returned v)) ∧
    (∀ (sh : LazyShared σ T) (pc : GetPC T), pc = GetPC.recheck_ran ∨ pc = GetPC.wait →
      (detail.LazyStatic.get_step init pc sh).2 = sh ∧
      GetPC.in_run (detail.LazyStatic.get_step init pc sh).1 = false) ∧
    (∀ (sh : LazyShared σ T),
      (sh.obj.once = true →
        detail.LazyStatic.get_step init GetPC.call_once sh = (GetPC.recheck_ran, sh)) ∧
      (sh.obj.once = false → sh.active = true →
        detail.LazyStatic.get_step init GetPC.call_once sh = (GetPC.call_once, sh)) ∧
      (sh.obj.ran = false →
        detail.LazyStatic.get_step init GetPC.recheck_ran sh = (GetPC.wait, sh)) ∧
      (sh.obj.ran = true →
        detail.LazyStatic.get_step init GetPC.recheck_ran sh = (GetPC.return_value, sh)) ∧
      (sh.obj.p = false →
        detail.LazyStatic.get_step init GetPC.wait sh = (GetPC.wait, sh)) ∧
      (sh.obj.p = true →
        detail.LazyStatic.get_step init GetPC.wait sh = (GetPC.return_value, sh))) := by
  have hI := LazySystem.run_inv init v w w1 hinit sched _ (LazySystem.initial_inv n v0 v w w1)
  have hlen : (LazySystem.run init sched (LazySystem.initial n v0 false w)).threads.length = n := by
    rw [LazySystem.run_length]; simp [LazySystem.initial]
  have hext : ∃ ext : List Nat, ∀ (i : Nat), i < n →
      (LazySystem.run init (sched ++ ext) (LazySystem.initial n v0 false w)).threads[i]? =
        some (GetPC.returned v) := by
    obtain ⟨ext, h⟩ := LazySystem.completes init v w w1 hinit _ _ hI (le_refl _)
    exact ⟨ext, fun i hi => by rw [LazySystem.run_append]; exact h i (by rw [hlen]; exact hi)⟩
  generalize LazySystem.run init sched (LazySystem.initial n v0 false w) = fin at hI hlen
  obtain ⟨hg, hall, huniq, hact⟩ := hI
  refine ⟨?_, ?_, ?_, ?_, ?_, ?_, ?_⟩
  · intro i x hx
    have h1 := hall i _ hx
    exact ⟨h1.1, (hg.1 h1.2).2.1⟩
  · cases ha : fin.shared.active
    · cases ho : fin.shared.obj.once
      · exact Or.inl (hg.2.2 ha ho).2.2
      · exact Or.inr (hg.1 (hg.2.1 ho).1).2.1
    · obtain ⟨j, q, hj, rq⟩ := hact ha
      have hq := hall j q hj
      cases q <;> simp [GetPC.in_run] at rq
      · exact Or.inl hq.2.2.2.2
      · exact Or.inr hq.2.2.2.2.1
      · exact Or.inr hq.2.2.2.2.1
      · exact Or.inr hq.2.2.2.2.1
  · intro i pc hpc
    have h1 := hall i pc hpc
    constructor
    · intro h; rw [h] at h1; exact h1
    · intro e h; rw [h] at h1; exact h1
  · intro hq i hi
    obtain ⟨pc, hpc⟩ : ∃ pc, fin.threads[i]? = some pc :=
      ⟨fin.threads[i], List.getElem?_eq_getElem (by rw [hlen]; exact hi)⟩
    by_cases hfin : ∀ x, pc ≠ GetPC.returned x
    · exfalso
      obtain ⟨j, q, hj, hmove⟩ :=
        LazySystem.progress init v w w1 hinit fin ⟨hg, hall, huniq, hact⟩ i pc hpc hfin
      have hjlt : j < fin.threads.length := (List.getElem?_eq_some.mp hj).1
      have := hq j (by rw [← hlen]; exact hjlt)
      rw [LazySystem.step_eq init j fin q hj] at this
      simp only [List.getElem?_set_self hjlt, hj, Option.some.injEq] at this
      exact hmove this
    · push_neg at hfin
      obtain ⟨x, hx⟩ := hfin
      rw [hx] at hpc
      rw [hpc, (hall i _ hpc).1]
  · exact hext
  · intro sh pc hpc
    rcases hpc with h | h <;> subst h <;> simp only [detail.LazyStatic.get_step] <;>
      split <;> simp [GetPC.in_run]
  · intro sh
    refine ⟨?_, ?_, ?_, ?_, ?_, ?_⟩
    · intro h; simp [detail.LazyStatic.get_step, h]
    · intro h1 h2; simp [detail.LazyStatic.get_step, h1, h2]
    · intro h; simp [detail.LazyStatic.get_step, h]
    · intro h; simp [detail.LazyStatic.get_step, h]
    · intro h; simp [detail.LazyStatic.get_step, h]
    · intro h; simp [detail.LazyStatic.get_step, h]

/-- C9 at a concrete run: three threads, `init()` returning 7 and counting its
runs in the world, and a schedule that interleaves them; at the end the three
calls have returned and the count is 1. -/
theorem lazy_static_concurrent_get_witness :
    (LazySystem.run (fun (k : Nat) => (Except.ok 7, k + 1))
        [0, 1, 0, 1, 2, 0, 1, 0, 0, 2, 0, 0, 0, 1, 1, 1, 2, 2, 2, 2]
        (LazySystem.initial 3 0 false 0)).threads =
      [GetPC.returned 7, GetPC.returned 7, GetPC.returned 7] ∧
    (LazySystem.run (fun (k : Nat) => (Except.ok 7, k + 1))
        [0, 1, 0, 1, 2, 0, 1, 0, 0, 2, 0, 0, 0, 1, 1, 1, 2, 2, 2, 2]
        (LazySystem.initial 3 0 false 0)).shared.world = 1 :=
  ⟨by decide,
   ((lazy_static_concurrent_get (fun (k : Nat) => (Except.ok 7, k + 1)) 0 7 0 1 rfl 3
      [0, 1, 0, 1, 2, 0, 1, 0, 0, 2, 0, 0, 0, 1, 1, 1, 2, 2, 2, 2]).1 0 7 (by decide)).2⟩

/-- C9, without its two conditions.  First, an `init()` that counts its runs
in the world, throws on its first run and returns 7 afterwards, and two
threads: thread 0 runs `init()` and raises; `call_once` leaves the flag
unclaimed, so thread 1 runs `init()` again and returns 7; `init()` has run
twice and the two calls did not end alike.  Second, an object whose readiness
flag, which the constructor does not initialise, holds `true`: both threads
return the value the object was constructed with, 0, and `init()`, which would
return 7, has not run. -/
theorem lazy_static_concurrent_get_conditions_needed :
    LazySystem.run
        (fun (k : Nat) =>
          if k = 0 then (Except.error (CppException.thrown 1), k + 1) else (Except.ok 7, k + 1))
        [0, 0, 0, 1, 1, 1, 1, 1, 1, 1, 1]
        (LazySystem.initial 2 0 false 0) =
      { shared :=
          { obj := { value := 7, once := true, ran := true, p := true },
            active := false,
            world := 2 },
        threads := [GetPC.raised (CppException.thrown 1), GetPC.returned 7] } ∧
    LazySystem.run (fun (k : Nat) => (Except.ok 7, k + 1))
        [0, 1, 0, 1]
        (LazySystem.initial 2 0 true 0) =
      { shared :=
          { obj := { value := 0, once := false, ran := true, p := false },
            active := false,
            world := 0 },
        threads := [GetPC.returned 0, GetPC.returned 0] } := by
  exact ⟨rfl, rfl⟩

/-- What one `start` does to the user-data block: the continuation slot holds
the continuation built from the handler, the rest is as before. -/
theorem Async.start_frame {P R : Type} (status : Int) (f : P → Except CppException R)
    (s : Async P R) :
    (Async.start status f s).2.internal_data.continuation =
      some (detail.AsyncContinuation.construct f) ∧
    (Async.start status f s).2.internal_data.close_continuation =
      s.internal_data.close_continuation ∧
    (Async.start status f s).2.internal_data.self = s.internal_data.self := by
  by_cases hst : status = 0 <;> simp [Async.start, uv_async_init, hst]

/-- What a sequence of `start` calls leaves alone. -/
theorem Async.start_all_frame {P R : Type} (starts : List (Int × (P → Except CppException R))) :
    ∀ s : Async P R,
      (Async.start_all starts s).internal_data.close_continuation =
        s.internal_data.close_continuation ∧
      (Async.start_all starts s).internal_data.self = s.internal_data.self := by
  induction starts with
  | nil => intro s; exact ⟨rfl, rfl⟩
  | cons p rest ih =>
    intro s
    obtain ⟨status, f⟩ := p
    obtain ⟨h1, h2⟩ := ih (Async.start status f s).2
    obtain ⟨-, g1, g2⟩ := Async.start_frame status f s
    simp only [Async.start_all]
    exact ⟨h1.trans g1, h2.trans g2⟩

/-- A sequence of `start` calls followed by one more. -/
theorem Async.start_all_append {P R : Type} (starts : List (Int × (P → Except CppException R)))
    (status : Int) (f : P → Except CppException R) :
    ∀ s : Async P R,
      Async.start_all (starts ++ [(status, f)]) s =
        (Async.start status f (Async.start_all starts s)).2 := by
  induction starts with
  | nil => intro s; rfl
  | cons p rest ih =>
    intro s
    obtain ⟨st, g⟩ := p
    simp only [List.cons_append, Async.start_all]
    exact ih _

/-- C11: after any sequence of `start` calls (handlers `h1, ..., hn`, whatever
`uv_async_init` returns each time) on a handle in any state, the continuation
slot holds one continuation, the one freshly built from the last handler `hn`,
with no payload and no promise: what an earlier `start` or `send` had put in
the slot is gone.  `close_continuation` and `self` are as before the calls. -/
theorem async_start_replaces_continuation {P R : Type} (s : Async P R)
    (earlier : List (Int × (P → Except CppException R))) (status : Int)
    (hn : P → Except CppException R) :
    (Async.start_all (earlier ++ [(status, hn)]) s).internal_data.continuation =
      some { f := hn, payload := none, promise := none } ∧
    (Async.start_all (earlier ++ [(status, hn)]) s).internal_data.close_continuation =
      s.internal_data.close_continuation ∧
    (Async.start_all (earlier ++ [(status, hn)]) s).internal_data.self =
      s.internal_data.self := by
  rw [Async.start_all_append]
  obtain ⟨h1, h2, h3⟩ := Async.start_frame status hn (Async.start_all earlier s)
  obtain ⟨g1, g2⟩ := Async.start_all_frame earlier s
  exact ⟨h1, h2.trans g1, h3.trans g2⟩

/-- The three overloads of `is_any` compute the disjunction over the list. -/
theorem is_any_eq_any {T K : Type} (eq : T → K → Bool) (val : T) (cs : List K) :
    uv.is_any eq val cs = cs.any (eq val) := by
  induction cs with
  | nil => rfl
  | cons c rest ih =>
    cases rest with
    | nil => simp [uv.is_any]
    | cons d rest2 => simp only [uv.is_any, List.any_cons, ih]

/-- The three overloads of `detail::is_any` compute the disjunction over the
list. -/
theorem detail_is_any_eq_any {T K : Type} (eq : T → K → Bool) (val : T) (cs : List K) :
    detail.is_any eq val cs = cs.any (eq val) := by
  induction cs with
  | nil => rfl
  | cons c rest ih =>
    cases rest with
    | nil => simp [detail.is_any]
    | cons d rest2 => simp only [detail.is_any, List.any_cons, ih]

/-- C12: for every value, every `operator==` and every finite list of
candidates, `is_any` is the disjunction `(val == c1) || ... || (val == cn)`: it
is true exactly when `val == c` for some candidate `c`, and false with no
candidates; the definition in `detail/utils.hpp` returns the same. -/
theorem is_any_iff_some_equal {T K : Type} (eq : T → K → Bool) (val : T) (cs : List K) :
    uv.is_any eq val cs = cs.any (eq val) ∧
    (uv.is_any eq val cs = true ↔ ∃ c, c ∈ cs ∧ eq val c = true) ∧
    uv.is_any eq val [] = false ∧
    detail.is_any eq val cs = uv.is_any eq val cs := by
  refine ⟨is_any_eq_any eq val cs, ?_, rfl, ?_⟩
  · rw [is_any_eq_any, List.any_eq_true]
  · rw [is_any_eq_any, detail_is_any_eq_any]

/-- C13: for a comparison `comp` that is irreflexive and transitive (as every
strict weak order is) and bounds with `!comp( hi, lo )`: the assertion holds
and `clamp( v, lo, hi, comp )` returns `lo` when `comp( v, lo )`, `hi` when
`comp( hi, v )`, and `v` otherwise; the result `r` has `!comp( r, lo )` and
`!comp( hi, r )`; and the three-argument `clamp` is the four-argument one with
`operator<`. -/
theorem clamp_within_bounds {T : Type} (comp : T → T → Bool) (v lo hi : T)
    (hirr : ∀ a, comp a a = false)
    (htrans : ∀ a b c, comp a b = true → comp b c = true → comp a c = true)
    (hpre : comp hi lo = false) :
    ∃ r, detail.clamp v lo hi comp = some r ∧
      (comp v lo = true → r = lo) ∧
      (comp hi v = true → r = hi) ∧
      (comp v lo = false → comp hi v = false → r = v) ∧
      comp r lo = false ∧ comp hi r = false ∧
      detail.clamp3 comp v lo hi = detail.clamp v lo hi comp := by
  have hexcl : comp v lo = true → comp hi v = true → False := by
    intro h1 h2
    have := htrans hi v lo h2 h1
    rw [hpre] at this
    cases this
  cases h1 : comp v lo
  · cases h2 : comp hi v
    · exact ⟨v, by simp [detail.clamp, hpre, h1, h2], by simp, by simp, fun _ _ => rfl,
        h1, h2, rfl⟩
    · exact ⟨hi, by simp [detail.clamp, hpre, h1, h2], by simp, fun _ => rfl, by simp,
        hpre, hirr hi, rfl⟩
  · have h2 : comp hi v = false := by
      cases h : comp hi v
      · rfl
      · exact absurd h (fun h => hexcl h1 h)
    exact ⟨lo, by simp [detail.clamp, hpre, h1], fun _ => rfl, by simp [h2], by simp,
      hirr lo, hpre, rfl⟩

/-- C13 at concrete inputs: natural numbers with `<`, bounds 3 and 8. -/
theorem clamp_within_bounds_witness :
    detail.clamp 1 3 8 (fun a b => decide (a < b)) = some 3 ∧
    detail.clamp 10 3 8 (fun a b => decide (a < b)) = some 8 ∧
    detail.clamp 5 3 8 (fun a b => decide (a < b)) = some 5 ∧
    ∃ r, detail.clamp 10 3 8 (fun (a b : Nat) => decide (a < b)) = some r ∧
      (decide (10 < 3) = true → r = 3) ∧
      (decide (8 < 10) = true → r = 8) ∧
      (decide (10 < 3) = false → decide (8 < 10) = false → r = 10) ∧
      decide (r < 3) = false ∧ decide (8 < r) = false ∧
      detail.clamp3 (fun (a b : Nat) => decide (a < b)) 10 3 8 =
        detail.clamp 10 3 8 (fun (a b : Nat) => decide (a < b)) :=
  ⟨by decide, by decide, by decide,
   clamp_within_bounds (fun (a b : Nat) => decide (a < b)) 10 3 8
    (fun a => by simp)
    (fun a b c h1 h2 => by
      simp only [decide_eq_true_eq] at h1 h2 ⊢
      omega)
    (by decide)⟩

/-- A buffer that was allocated has a size whose double fits `size_t`. -/
theorem os.double_fits {σ : Type} (has_memory : Nat → σ → Bool) (b : Nat) (w : σ)
    (h : os.new_char_array has_memory b w = true) :
    (b * 2) % 2 ^ os.size_t_bits = b * 2 := by
  simp only [os.new_char_array, Bool.and_eq_true, decide_eq_true_eq, os.ptrdiff_max] at h
  apply Nat.mod_eq_of_lt
  have : b * 2 < 2 ^ 64 := by omega
  exact this

/-- One round of the loop of `process_title` in which the buffer cannot be
allocated: `std::bad_alloc` leaves the function, the size is left as it is. -/
theorem os.process_title_round_no_memory {σ : Type} (UV_ENOBUFS : Int)
    (has_memory : Nat → σ → Bool) (builds_string : String → σ → Bool)
    (native : Nat → σ → (Int × String) × σ) (fuel b : Nat) (w : σ)
    (h : os.new_char_array has_memory b w = false) :
    os.process_title UV_ENOBUFS has_memory builds_string native (fuel + 1) b w =
      some (Except.error CppException.bad_alloc, b, w) := by
  simp [os.process_title, h]

/-- One round of the loop of `process_title` that gets `UV_ENOBUFS`: the next
round runs with the size doubled, in the world the native call left. -/
theorem os.process_title_round_enobufs {σ : Type} (UV_ENOBUFS : Int) (hne : UV_ENOBUFS ≠ 0)
    (has_memory : Nat → σ → Bool) (builds_string : String → σ → Bool)
    (native : Nat → σ → (Int × String) × σ) (fuel b : Nat) (w : σ)
    (hmem : os.new_char_array has_memory b w = true)
    (h : (native b w).1.1 = UV_ENOBUFS) :
    os.process_title UV_ENOBUFS has_memory builds_string native (fuel + 1) b w =
      os.process_title UV_ENOBUFS has_memory builds_string native fuel (b * 2) (native b w).2 := by
  rcases hn : native b w with ⟨⟨res, buffer⟩, w1⟩
  rw [hn] at h
  simp only at h
  subst h
  simp [os.process_title, hn, hne, hmem, os.double_fits has_memory b w hmem]

/-- One round of the loop of `process_title` that gets a status other than
`UV_ENOBUFS`: the call ends, with the title for status 0 (or `std::bad_alloc`
when the string cannot be built) and with `Exception( res )` otherwise; the
size is left as it is. -/
theorem os.process_title_round_end {σ : Type} (UV_ENOBUFS : Int)
    (has_memory : Nat → σ → Bool) (builds_string : String → σ → Bool)
    (native : Nat → σ → (Int × String) × σ) (fuel b : Nat) (w w1 : σ) (res : Int)
    (title : String) (hmem : os.new_char_array has_memory b w = true)
    (hn : native b w = ((res, title), w1)) (hres : res ≠ UV_ENOBUFS) :
    os.process_title UV_ENOBUFS has_memory builds_string native (fuel + 1) b w =
      some (if res = 0 then
              (if builds_string title w1 then Except.ok title
               else Except.error CppException.bad_alloc)
            else Except.error (CppException.uv_Exception res), b, w1) := by
  by_cases h0 : res = 0
  · cases hb : builds_string title w1 <;> simp [os.process_title, hn, h0, hmem, hb]
  · simp [os.process_title, hn, h0, hres, hmem]

/-- After `k` rounds, each with its buffer allocated and `UV_ENOBUFS` from the
native call, the call goes on as a call with the size doubled `k` times. -/
theorem os.process_title_retries {σ : Type} (UV_ENOBUFS : Int) (hne : UV_ENOBUFS ≠ 0)
    (has_memory : Nat → σ → Bool) (builds_string : String → σ → Bool)
    (native : Nat → σ → (Int × String) × σ) (k : Nat) :
    ∀ (b : Nat) (ws : Nat → σ) (fuel : Nat),
      (∀ j, j < k →
        os.new_char_array has_memory (b * 2 ^ j) (ws j) = true ∧
        (native (b * 2 ^ j) (ws j)).1.1 = UV_ENOBUFS ∧
        (native (b * 2 ^ j) (ws j)).2 = ws (j + 1)) →
      os.process_title UV_ENOBUFS has_memory builds_string native (k + fuel) b (ws 0) =
        os.process_title UV_ENOBUFS has_memory builds_string native fuel (b * 2 ^ k) (ws k) := by
  induction k with
  | zero =>
    intro b ws fuel _
    simp
  | succ k ih =>
    intro b ws fuel hretry
    have h0 := hretry 0 (Nat.succ_pos k)
    simp only [pow_zero, Nat.mul_one] at h0
    rw [show k + 1 + fuel = (k + fuel) + 1 by omega,
      os.process_title_round_enobufs UV_ENOBUFS hne has_memory builds_string native _ b (ws 0)
        h0.1 h0.2.1, h0.2.2]
    have hshift : ∀ j, b * 2 * 2 ^ j = b * 2 ^ (j + 1) := by
      intro j
      rw [pow_succ]
      ring
    have := ih (b * 2) (fun j => ws (j + 1)) fuel
      (fun j hj => by
        rw [hshift]
        exact hretry (j + 1) (Nat.succ_lt_succ hj))
    rw [hshift] at this
    exact this

/-- Against a native call that returns `UV_ENOBUFS` for every size up to `L`
and succeeds for every larger size, with memory for every buffer tried and for
the string, the call returns a title after `k` doublings, `b * 2 ^ k` being the
first of `b, 2 b, 4 b, ...` above `L`. -/
theorem os.process_title_doubles {σ : Type} (UV_ENOBUFS : Int) (hne : UV_ENOBUFS ≠ 0)
    (has_memory : Nat → σ → Bool) (builds_string : String → σ → Bool)
    (native : Nat → σ → (Int × String) × σ) (L : Nat)
    (hsucc : ∀ size w, L < size → (native size w).1.1 = 0)
    (hfail : ∀ size w, size ≤ L → (native size w).1.1 = UV_ENOBUFS)
    (hstr : ∀ title w, builds_string title w = true) (k : Nat) :
    ∀ (b : Nat) (w : σ) (extra : Nat),
      (∀ j, j < k → b * 2 ^ j ≤ L) → L < b * 2 ^ k →
      (∀ j w2, j ≤ k → os.new_char_array has_memory (b * 2 ^ j) w2 = true) →
      ∃ title w1,
        os.process_title UV_ENOBUFS has_memory builds_string native (k + 1 + extra) b w =
          some (Except.ok title, b * 2 ^ k, w1) := by
  induction k with
  | zero =>
    intro b w extra _ hL hmem
    simp only [pow_zero, Nat.mul_one] at hL ⊢
    have hm := hmem 0 w (Nat.le_refl 0)
    simp only [pow_zero, Nat.mul_one] at hm
    have h0 := hsucc b w hL
    rcases hn : native b w with ⟨⟨res, title⟩, w1⟩
    rw [hn] at h0
    simp only at h0
    subst h0
    refine ⟨title, w1, ?_⟩
    rw [show 0 + 1 + extra = extra + 1 by omega,
      os.process_title_round_end UV_ENOBUFS has_memory builds_string native extra b w w1 0 title
        hm hn (fun h => hne h.symm)]
    simp [hstr]
  | succ k ih =>
    intro b w extra hle hL hmem
    have hb : b ≤ L := by
      have := hle 0 (Nat.succ_pos k)
      simpa using this
    have hm := hmem 0 w (Nat.zero_le _)
    simp only [pow_zero, Nat.mul_one] at hm
    have h2 : b * 2 ^ (k + 1) = b * 2 * 2 ^ k := by rw [pow_succ]; ring
    rw [show k + 1 + 1 + extra = (k + 1 + extra) + 1 by omega,
      os.process_title_round_enobufs UV_ENOBUFS hne has_memory builds_string native _ b w hm
        (hfail b w hb), h2]
    refine ih (b * 2) _ extra ?_ (by rw [← h2]; exact hL) ?_
    · intro j hj
      have := hle (j + 1) (Nat.succ_lt_succ hj)
      rw [pow_succ] at this
      calc b * 2 * 2 ^ j = b * (2 ^ j * 2) := by ring
        _ ≤ L := this
    · intro j w2 hj
      have := hmem (j + 1) w2 (Nat.succ_le_succ hj)
      rw [pow_succ] at this
      rw [show b * 2 * 2 ^ j = b * (2 ^ j * 2) by ring]
      exact this

/-- C14: `os::process_title()` against any native `uv_get_process_title` and any
environment, from the persistent size `b`.  If in each of the first `k` rounds
the buffer is allocated and the native call, made with the sizes
`b, 2 b, ..., 2^(k-1) b` and each in the world the one before left, returns
`UV_ENOBUFS`, then the next round runs with the size `2^k b` and nothing else
changed, and the call ends in that round unless it gets `UV_ENOBUFS` again:
when its buffer cannot be allocated `std::bad_alloc` is raised; when the
native call returns 0 the title of that call is returned (`std::bad_alloc` if
the string cannot be built); when it returns another status `res`,
`Exception( res )` is raised; the persistent size is `2^k b` in each case.  If
the native call returns `UV_ENOBUFS` for every size up to `L` and succeeds for
every size above `L`, `b * 2 ^ k` is the first of `b, 2 b, 4 b, ...` above
`L`, and there is memory for the buffers of the sizes up to it and for the
string, then the call returns a title after `k` doublings, the persistent size
ends as `b * 2 ^ k`, and a later call returns on its first attempt with the
size unchanged. -/
theorem process_title_retry_doubling {σ : Type} (UV_ENOBUFS : Int) (hne : UV_ENOBUFS ≠ 0)
    (has_memory : Nat → σ → Bool) (builds_string : String → σ → Bool)
    (native : Nat → σ → (Int × String) × σ) (b : Nat) :
    (∀ (k : Nat) (ws : Nat → σ) (extra : Nat),
      (∀ j, j < k →
        os.new_char_array has_memory (b * 2 ^ j) (ws j) = true ∧
        (native (b * 2 ^ j) (ws j)).1.1 = UV_ENOBUFS ∧
        (native (b * 2 ^ j) (ws j)).2 = ws (j + 1)) →
      (os.new_char_array has_memory (b * 2 ^ k) (ws k) = false →
        os.process_title UV_ENOBUFS has_memory builds_string native (k + 1 + extra) b (ws 0) =
          some (Except.error CppException.bad_alloc, b * 2 ^ k, ws k)) ∧
      (∀ (res : Int) (title : String) (w1 : σ),
        os.new_char_array has_memory (b * 2 ^ k) (ws k) = true →
        native (b * 2 ^ k) (ws k) = ((res, title), w1) →
        res ≠ UV_ENOBUFS →
        os.process_title UV_ENOBUFS has_memory builds_string native (k + 1 + extra) b (ws 0) =
          some (if res = 0 then
                  (if builds_string title w1 then Except.ok title
                   else Except.error CppException.bad_alloc)
                else Except.error (CppException.uv_Exception res),
                b * 2 ^ k, w1))) ∧
    (∀ (L k : Nat),
      (∀ size w, L < size → (native size w).1.1 = 0) →
      (∀ size w, size ≤ L → (native size w).1.1 = UV_ENOBUFS) →
      (∀ title w, builds_string title w = true) →
      (∀ j, j < k → b * 2 ^ j ≤ L) → L < b * 2 ^ k →
      (∀ j w2, j ≤ k → os.new_char_array has_memory (b * 2 ^ j) w2 = true) →
      ∀ (w : σ) (extra : Nat),
        (∃ title w1,
          os.process_title UV_ENOBUFS has_memory builds_string native (k + 1 + extra) b w =
            some (Except.ok title, b * 2 ^ k, w1)) ∧
        ∀ w2, ∃ title2 w3,
          os.process_title UV_ENOBUFS has_memory builds_string native 1 (b * 2 ^ k) w2 =
            some (Except.ok title2, b * 2 ^ k, w3)) := by
  refine ⟨?_, ?_⟩
  · intro k ws extra hretry
    have hgo := os.process_title_retries UV_ENOBUFS hne has_memory builds_string native k b ws
      (1 + extra) hretry
    rw [show k + (1 + extra) = k + 1 + extra by omega, show 1 + extra = extra + 1 by omega] at hgo
    refine ⟨?_, ?_⟩
    · intro hmem
      rw [hgo]
      exact os.process_title_round_no_memory UV_ENOBUFS has_memory builds_string native extra _ _
        hmem
    · intro res title w1 hmem hlast hres
      rw [hgo]
      exact os.process_title_round_end UV_ENOBUFS has_memory builds_string native extra _ _ w1
        res title hmem hlast hres
  · intro L k hsucc hfail hstr hle hL hmem w extra
    refine ⟨os.process_title_doubles UV_ENOBUFS hne has_memory builds_string native L hsucc hfail
      hstr k b w extra hle hL hmem, ?_⟩
    intro w2
    have := os.process_title_doubles UV_ENOBUFS hne has_memory builds_string native L hsucc hfail
      hstr 0 (b * 2 ^ k) w2 0
      (fun j hj => absurd hj (Nat.not_lt_zero j)) (by simpa using hL)
      (fun j w3 hj => by
        have hj0 : j = 0 := Nat.le_zero.mp hj
        subst hj0
        simpa using hmem k w3 (Nat.le_refl k))
    simpa using this

/-- C14 at a concrete native and environment: the title has 40 characters,
every native call counts itself in the world, and there is memory for every
request; from the size 16 the sizes tried are 16, 32 and 64. -/
theorem process_title_retry_doubling_witness :
    (∃ title w1,
      os.process_title (-105) (fun _ (_ : Nat) => true) (fun _ (_ : Nat) => true)
        (fun size (w : Nat) => if size ≤ 40 then ((-105, ""), w + 1) else ((0, "title"), w + 1))
        (2 + 1 + 0) 16 0 = some (Except.ok title, 16 * 2 ^ 2, w1)) ∧
    ∀ w2, ∃ title2 w3,
      os.process_title (-105) (fun _ (_ : Nat) => true) (fun _ (_ : Nat) => true)
        (fun size (w : Nat) => if size ≤ 40 then ((-105, ""), w + 1) else ((0, "title"), w + 1))
        1 (16 * 2 ^ 2) w2 = some (Except.ok title2, 16 * 2 ^ 2, w3) :=
  (process_title_retry_doubling (-105) (by decide)
    (fun _ (_ : Nat) => true) (fun _ (_ : Nat) => true)
    (fun size (w : Nat) => if size ≤ 40 then ((-105, ""), w + 1) else ((0, "title"), w + 1))
    16).2 40 2
    (fun size w h => by simp [Nat.not_le.mpr h])
    (fun size w h => by simp [h])
    (fun _ _ => rfl)
    (fun j hj => by interval_cases j <;> simp)
    (by decide)
    (fun j w2 hj => by
      interval_cases j <;> simp [os.new_char_array, os.ptrdiff_max])
    0 0

/-- C14, without its two conditions.  First, a native call that never returns
`UV_ENOBUFS`: it copies as much of the title (20 characters, so `L = 20`) as
the buffer holds and returns 0; it succeeds for every size above 20, yet with
memory for every request the call returns from its first round with the
persistent size still 16, which is not above 20 (the first of 16, 32, ...
above 20 is 32).  Second, a native call with a title of 40 characters that
returns `UV_ENOBUFS` up to the size 40 and succeeds above it, in an
environment without memory for a request of 64 bytes or more: the rounds with
the sizes 16 and 32 get `UV_ENOBUFS`, the buffer of 64 bytes cannot be
allocated, and the call raises `std::bad_alloc`; the persistent size is 64,
and a later call raises `std::bad_alloc` again. -/
theorem process_title_conditions_needed :
    ((∀ (size : Nat) (w : Unit), 20 < size →
        ((fun (size : Nat) (w : Unit) =>
            (((0 : Int), String.mk (List.take (size - 1) "abcdefghijklmnopqrst".data)), w))
          size w).1.1 = 0) ∧
      os.process_title (-105) (fun _ (_ : Unit) => true) (fun _ (_ : Unit) => true)
        (fun (size : Nat) (w : Unit) =>
          (((0 : Int), String.mk (List.take (size - 1) "abcdefghijklmnopqrst".data)), w))
        10 16 () = some (Except.ok "abcdefghijklmno", 16, ()) ∧
      ¬ (20 < 16) ∧ 20 < 16 * 2 ^ 1) ∧
    ((∀ (size : Nat) (w : Unit), 40 < size →
        ((fun (size : Nat) (w : Unit) =>
            if size ≤ 40 then (((-105 : Int), ""), w)
            else (((0 : Int), "0123456789012345678901234567890123456789"), w))
          size w).1.1 = 0) ∧
      os.process_title (-105) (fun size (_ : Unit) => decide (size < 64))
        (fun _ (_ : Unit) => true)
        (fun (size : Nat) (w : Unit) =>
          if size ≤ 40 then (((-105 : Int), ""), w)
          else (((0 : Int), "0123456789012345678901234567890123456789"), w))
        10 16 () = some (Except.error CppException.bad_alloc, 64, ()) ∧
      os.process_title (-105) (fun size (_ : Unit) => decide (size < 64))
        (fun _ (_ : Unit) => true)
        (fun (size : Nat) (w : Unit) =>
          if size ≤ 40 then (((-105 : Int), ""), w)
          else (((0 : Int), "0123456789012345678901234567890123456789"), w))
        10 64 () = some (Except.error CppException.bad_alloc, 64, ())) := by
  refine ⟨⟨fun _ _ _ => rfl, rfl, by decide, by decide⟩, ⟨?_, rfl, rfl⟩⟩
  intro size w h
  simp [Nat.not_le.mpr h]

/-- The first call on a freshly constructed object whose readiness flag is
`false`, when `init()` throws: the call raises the exception and the object is
as constructed. -/
theorem LazyStatic.call_first_raises {σ T : Type} (init : Comp σ T) (c : LazyCall) (v0 : T)
    (w w1 : σ) (e : CppException) (hinit : init w = (Except.error e, w1)) :
    detail.LazyStatic.call init c (detail.LazyStatic.construct v0 false) w =
      (Outcome.raised e, detail.LazyStatic.construct v0 false, w1) := by
  cases c <;>
    simp [detail.LazyStatic.call, detail.LazyStatic.conversion, detail.LazyStatic.get,
      detail.LazyStatic.call_once_run, detail.LazyStatic.run, detail.LazyStatic.construct, hinit]

/-- C15: if `init()` raises `e` during the first `get()` (or conversion) on a
freshly constructed object (its readiness flag false, or `init()` would not
run), that call raises `e`; the object is left as constructed: readiness flag false, promise unfulfilled, one-time gate
unclaimed; and the next call runs `init()` again: it returns the value of that
second run and leaves the object ready, or raises what the second run raises.
It neither returns the value the object was constructed with nor blocks. -/
theorem lazy_static_init_raises_then_retry {σ T : Type} (init : Comp σ T) (v0 : T) (w w1 : σ)
    (e : CppException) (hinit : init w = (Except.error e, w1)) (c c2 : LazyCall) :
    detail.LazyStatic.call init c (detail.LazyStatic.construct v0 false) w =
      (Outcome.raised e, detail.LazyStatic.construct v0 false, w1) ∧
    (detail.LazyStatic.call init c (detail.LazyStatic.construct v0 false) w).2.1.ran = false ∧
    (detail.LazyStatic.call init c (detail.LazyStatic.construct v0 false) w).2.1.p = false ∧
    (detail.LazyStatic.call init c (detail.LazyStatic.construct v0 false) w).2.1.once = false ∧
    (∀ v w2, init w1 = (Except.ok v, w2) →
      detail.LazyStatic.calls init [c, c2] (detail.LazyStatic.construct v0 false) w =
        ([Outcome.raised e, Outcome.returned v],
          { value := v, once := true, ran := true, p := true }, w2)) ∧
    (∀ e2 w2, init w1 = (Except.error e2, w2) →
      detail.LazyStatic.calls init [c, c2] (detail.LazyStatic.construct v0 false) w =
        ([Outcome.raised e, Outcome.raised e2], detail.LazyStatic.construct v0 false, w2)) := by
  have h1 := LazyStatic.call_first_raises init c v0 w w1 e hinit
  refine ⟨h1, ?_, ?_, ?_, ?_, ?_⟩
  · rw [h1]; rfl
  · rw [h1]; rfl
  · rw [h1]; rfl
  · intro v w2 h2
    simp [detail.LazyStatic.calls, h1, LazyStatic.call_first init c2 v0 v w1 w2 h2]
  · intro e2 w2 h2
    simp [detail.LazyStatic.calls, h1, LazyStatic.call_first_raises init c2 v0 w1 w2 e2 h2]

/-- C15 at a concrete input: `init()` counts its runs in the world, throws on
the first run and returns 7 on the second. -/
theorem lazy_static_init_raises_then_retry_witness :
    detail.LazyStatic.calls
        (fun (k : Nat) =>
          if k = 0 then (Except.error (CppException.thrown 1), k + 1) else (Except.ok 7, k + 1))
        [LazyCall.get, LazyCall.get] (detail.LazyStatic.construct 0 false) 0 =
      ([Outcome.raised (CppException.thrown 1), Outcome.returned 7],
        { value := 7, once := true, ran := true, p := true }, 2) :=
  (lazy_static_init_raises_then_retry
    (fun (k : Nat) =>
      if k = 0 then (Except.error (CppException.thrown 1), k + 1) else (Except.ok 7, k + 1))
    0 0 1 (CppException.thrown 1) rfl LazyCall.get LazyCall.get).2.2.2.2.1 7 2 rfl

/-- The value handed to the continuation is the innermost value itself. -/
theorem Ty.as_arg_heq {σ α : Type} (v : α) :
    ∀ n : Nat, HEq (@Ty.as_arg σ α n v) v := by
  intro n
  induction n with
  | zero => exact HEq.rfl
  | succ n ih => exact ih

/-- On a source with `n` layers of `future` inside it `recursive_get` calls
`get()` on every layer, `n + 1` times in all, and returns the innermost
value. -/
theorem recursive_get_nested {σ α : Type} (tick : σ → σ) (v : α) :
    ∀ (n : Nat) (w : σ),
      recursive_get (Ty.nest n (Ty.plain α)) (nested_future tick v n) w =
        (Except.ok (Ty.as_arg n v), tick^[n + 1] w) := by
  intro n
  induction n with
  | zero => intro w; rfl
  | succ n ih =>
    intro w
    show Comp.seq (nested_future tick v (n + 1)).get
        (fun inner => recursive_get (Ty.nest n (Ty.plain α)) inner) w = _
    rw [Comp.seq_ok _ _ w (tick w) (nested_future tick v n) rfl, ih (tick w)]
    rfl

/-- C16: for an exclusive source whose type has `n` layers of `future` inside
the source future, around the value `v`, every `get()` leaving a tick in the
world: `recursive_get` calls `get()` on all `n + 1` layers and yields `v`, and
retrieving the result of `then( s, f )` gives what `f` gives on the innermost
value `v`, not on an inner future, run after those `n + 1` calls of `get()`.
On a source with no nesting `recursive_get` is one call of `get()`. -/
theorem then_nested_source_innermost {σ α : Type} {Ret : Ty} (tick : σ → σ) (v : α) (n : Nat)
    (f : Ty.denote σ (Ty.unwrap (Ty.nest n (Ty.plain α))) → Comp σ (Ty.denote σ Ret))
    (policy : launch) (w : σ) :
    Ty.unwrap (Ty.nest n (Ty.plain α)) = Ty.plain α ∧
    HEq (@Ty.as_arg σ α n v) v ∧
    recursive_get (Ty.nest n (Ty.plain α)) (nested_future tick v n) w =
      (Except.ok (Ty.as_arg n v), tick^[n + 1] w) ∧
    (then_ (Ty.nest n (Ty.plain α)) (nested_future tick v n) f policy).get w =
      f (Ty.as_arg n v) (tick^[n + 1] w) ∧
    (∀ s : detail.future σ α, recursive_get (Ty.plain α) s = s.get) := by
  refine ⟨?_, Ty.as_arg_heq v n, recursive_get_nested tick v n w, ?_, fun _ => rfl⟩
  · induction n with
    | zero => rfl
    | succ n ih => exact ih (fun x => f x)
  · rw [then_get_eq]
    exact Comp.seq_ok _ _ _ _ _ (recursive_get_nested tick v n w)

/-- C16 at a concrete input: `future<future<future<int>>>` around 5, the world
counting the calls of `get()`, and `f = v + 1`: the result is 6 after three
calls of `get()`. -/
theorem then_nested_source_innermost_witness :
    (@then_ Nat (Ty.plain Nat) (Ty.nest 2 (Ty.plain Nat)) (nested_future Nat.succ 5 2)
        (fun (x : Nat) => Comp.ret (x + 1)) default_policy).get 0 = (Except.ok 6, 3) :=
  (@then_nested_source_innermost Nat Nat (Ty.plain Nat) Nat.succ 5 2
    (fun (x : Nat) => Comp.ret (x + 1)) default_policy 0).2.2.2.1

end uv
